import Mathlib

/-!
Verification of the `MeshTri` core of voropy (`voropy/mesh_tri.py`) against its
natural-language specification.

The embedding works over exact rationals.  Vectors are lists of rationals
(the code is dimension-generic through `_row_dot`).  Square roots are
represented by `ratSqrt` (floor square root of numerator and denominator, the
same computation as Mathlib's `Rat.sqrt` but structurally recursive so the
kernel can evaluate it), which agrees with the real square root on perfect
squares; every concrete mesh used below has integer coordinates, for which all
square roots appearing in the computations are exact.

The geometry kernel (`compute_tri_areas_and_ce_ratios`,
`compute_triangle_circumcenters`, `unique_rows`, `get_edge_lengths`) lives in
`voropy/base.py` / `voropy/helpers.py`, which are not part of the sources under
review; those functions are modelled from the specification's contracts (see
the individual doc comments).  Everything else is translated directly from
`voropy/mesh_tri.py`.

Memoisation fields of the Python class that are written exactly once by their
own getter and never patched in place (`_cell_partitions`, `_control_volumes`,
`_cv_centroids`, `_surface_areas`, `_centroids`, `_signed_tri_areas`) are
modelled as pure functions of the state.  The fields that are mutated in place
by the edge-flip engine or by the flat-cell corrector
(`cells`, `edges`, `ce_ratios_per_half_edge`, `cell_volumes`, `_edges_cells`,
`_edge_gid_to_edge_list`, `_interior_ce_ratios`, `_ce_ratios`,
`is_boundary_node`, `is_boundary_face`) are explicit state.
-/

/-- Largest `k` below the second argument with `k * k ≤ n` (structural
recursion so that the kernel can evaluate it). -/
def natSqrtGo (n : ℕ) : ℕ → ℕ
  | 0 => 0
  | k + 1 => if (k + 1) * (k + 1) ≤ n then k + 1 else natSqrtGo n k

/-- Floor square root of a natural number. -/
def natSqrtFloor (n : ℕ) : ℕ := natSqrtGo n n

/-- Floor square root on rationals, the computation of Mathlib's `Rat.sqrt`
(`mkRat (Int.sqrt num) (Nat.sqrt den)`; the integer square root of a negative
numerator is `0`); exact on perfect squares. -/
def ratSqrt (q : ℚ) : ℚ := (natSqrtFloor q.num.toNat : ℚ) / (natSqrtFloor q.den : ℚ)

/-- Coordinate vector: the code is dimension generic (numpy arrays of shape
`(n, dim)` reduced with `_row_dot`). -/
abbrev Vec := List ℚ

def dotV (a b : Vec) : ℚ := (List.zipWith (· * ·) a b).sum

def subV (a b : Vec) : Vec := List.zipWith (· - ·) a b

def addV (a b : Vec) : Vec := List.zipWith (· + ·) a b

def smulV (c : ℚ) (a : Vec) : Vec := a.map (c * ·)

/-- A triple indexed by local indices `0, 1, 2` (numpy axes of length 3). -/
structure Tri3 (α : Type) where
  fst3 : α
  snd3 : α
  trd3 : α
deriving DecidableEq, Repr, Inhabited

def Tri3.get {α : Type} (t : Tri3 α) (i : ℕ) : α :=
  if i % 3 = 0 then t.fst3 else if i % 3 = 1 then t.snd3 else t.trd3

def Tri3.set {α : Type} (t : Tri3 α) (i : ℕ) (v : α) : Tri3 α :=
  if i % 3 = 0 then { t with fst3 := v }
  else if i % 3 = 1 then { t with snd3 := v }
  else { t with trd3 := v }

/-- A cell: ordered triple of node ids (`cells["nodes"]` row). -/
abbrev Cell := Tri3 ℕ

/-- Failure conditions of the Python code: `assert` statements, illegal numpy
indexing, and (for the flip loop, which the source runs without any cap)
exhaustion of the explicit fuel of the embedding. -/
inductive Err where
  | indexOutOfRange
  | unusedNode
  | tooManyCellsPerEdge
  | isoscelesPremise
  | asymmetricCeRatios
  | flipFullFcc
  | missingEdges
  | adjCountInvariant
  | atMostOneEdgePerCell
  | hitsNotOne
  | edgeListNotUnique
  | boundaryAdjMismatch
  | adjXor
  | patchMatchNotOne
  | outOfFuel
deriving DecidableEq, Repr

/-- Modelled from the spec: the Geometry Kernel's
`triangleAreaAndCovolumeRatios(pairwiseDotProducts[3]) -> (area, ratios[3])`.
The area comes from the identity `4·area² = d₀d₁ + d₁d₂ + d₂d₀` for the
pairwise dot products `dᵢ = e_{i+1}·e_{i+2}` of the half edges, and each
covolume-edge ratio follows the law-of-cosines contract of the spec:
`ratio = (sum of squares of adjacent two edges minus square of opposite edge)
/ (4 · area)`, with `|eᵢ|² = -(d_{i+1} + d_{i+2})`. -/
def triAreaCeKernel (d0 d1 d2 : ℚ) : ℚ × Tri3 ℚ :=
  let area : ℚ := ratSqrt (d0 * d1 + d1 * d2 + d2 * d0) / 2
  let d : Tri3 ℚ := ⟨d0, d1, d2⟩
  let sq : ℕ → ℚ := fun i => -(d.get (i + 1) + d.get (i + 2))
  let ce : ℕ → ℚ := fun i => (sq (i + 1) + sq (i + 2) - sq i) / (4 * area)
  (area, ⟨ce 0, ce 1, ce 2⟩)

def nodeAt (N : List Vec) (i : ℕ) : Vec := N.getD i []

/-- Half edge `k` of a cell: `e_k = X[n_{k+2}] - X[n_{k+1}]` (the local index
convention `local_idx = [[1, 2], [2, 0], [0, 1]].T` of `MeshTri.__init__`). -/
def halfEdge (N : List Vec) (c : Cell) (k : ℕ) : Vec :=
  subV (nodeAt N (c.get (k + 2))) (nodeAt N (c.get (k + 1)))

/-- `self.ei_dot_ej[k]`: dot product of the two half edges adjacent to edge `k`. -/
def eiDotEj (N : List Vec) (c : Cell) (k : ℕ) : ℚ :=
  dotV (halfEdge N c (k + 1)) (halfEdge N c (k + 2))

/-- `self.ei_dot_ei[k]`: squared length of half edge `k`. -/
def eiDotEi (N : List Vec) (c : Cell) (k : ℕ) : ℚ :=
  dotV (halfEdge N c k) (halfEdge N c k)

/-- Per-cell `(cell_volume, ce_ratios_per_half_edge)` as computed in
`MeshTri.__init__` / `_update_cell_values` via the kernel. -/
def cellVolCe (N : List Vec) (c : Cell) : ℚ × Tri3 ℚ :=
  triAreaCeKernel (eiDotEj N c 0) (eiDotEj N c 1) (eiDotEj N c 2)

def sortPair (a b : ℕ) : ℕ × ℕ := if a ≤ b then (a, b) else (b, a)

def pairLeB (a b : ℕ × ℕ) : Bool := a.1 < b.1 || (a.1 = b.1 && a.2 ≤ b.2)

/-- Index of the first occurrence of a row in the unique table (the inverse
indices of `unique_rows`). -/
def idxOf : List (ℕ × ℕ) → (ℕ × ℕ) → ℕ
  | [], _ => 0
  | x :: xs, r => if x = r then 0 else idxOf xs r + 1

/-- Modelled from the spec: `uniqueRowsWithInverseAndCounts` produces a sorted,
deduplicated row table (`numpy.unique` sorts lexicographically); the inverse
indices are taken with `idxOf`. -/
def uniqueRowTable (rows : List (ℕ × ℕ)) : List (ℕ × ℕ) :=
  rows.dedup.mergeSort pairLeB

/-- The flattened half-edge rows of `create_edges`:
`numpy.sort(self.idx_hierarchy.reshape(2, -1).T)`, in k-major order. -/
def edgeRow (cells : List Cell) (k i : ℕ) : ℕ × ℕ :=
  let c := cells.getD i ⟨0, 0, 0⟩
  sortPair (c.get (k + 1)) (c.get (k + 2))

def edgeRows (cells : List Cell) : List (ℕ × ℕ) :=
  (List.range 3).flatMap fun k => (List.range cells.length).map fun i => edgeRow cells k i

/-- `self.edges["nodes"]`, `self.cells["edges"]`, the boundary masks and
`self._edge_to_edge_gid` as produced by `MeshTri.create_edges`. -/
structure EdgeData where
  edgesNodes : List (ℕ × ℕ)
  cellsEdges : List (Tri3 ℕ)
  isBndEdge : List (Tri3 Bool)
  bndInd : List Bool
  bndGids : List ℕ
  intGids : List ℕ
deriving DecidableEq, Repr, Inhabited

/-- The per-unique-row multiplicities `cts` of `create_edges`. -/
def edgeCts (cells : List Cell) : List ℕ :=
  (uniqueRowTable (edgeRows cells)).map fun u => (edgeRows cells).count u

/-- `is_boundary_edge_individual`: a unique row is boundary iff it occurs once. -/
def bndIndOf (cells : List Cell) : List Bool :=
  (edgeCts cells).map fun ct => ct == 1

/-- `self.cells["edges"]`: per cell the gids of its three local edges
(`inv.reshape(3, -1).T`, i.e. the inverse indices of the three rows). -/
def cellsEdgesOf (cells : List Cell) : List (Tri3 ℕ) :=
  (List.range cells.length).map fun i =>
    (⟨idxOf (uniqueRowTable (edgeRows cells)) (edgeRow cells 0 i),
      idxOf (uniqueRowTable (edgeRows cells)) (edgeRow cells 1 i),
      idxOf (uniqueRowTable (edgeRows cells)) (edgeRow cells 2 i)⟩ : Tri3 ℕ)

/-- `is_boundary_edge`: the `(3, num_cells)` positional mask
(`(cts[inv] == 1).reshape(...)`). -/
def isBndEdgeOf (cells : List Cell) : List (Tri3 Bool) :=
  (cellsEdgesOf cells).map fun t =>
    (⟨(bndIndOf cells).getD t.fst3 false, (bndIndOf cells).getD t.snd3 false,
      (bndIndOf cells).getD t.trd3 false⟩ : Tri3 Bool)

/-- `MeshTri.create_edges`: edge table from deduplicated half-edge rows; fails
(`assert numpy.all(cts < 3)`) if some row occurs three or more times. -/
def computeEdgeData (cells : List Cell) : Except Err EdgeData :=
  if (edgeCts cells).all (fun ct => ct < 3) then
    Except.ok
      { edgesNodes := uniqueRowTable (edgeRows cells)
        cellsEdges := cellsEdgesOf cells
        isBndEdge := isBndEdgeOf cells
        bndInd := bndIndOf cells
        bndGids := (List.range (uniqueRowTable (edgeRows cells)).length).filter fun g =>
          (bndIndOf cells).getD g false
        intGids := (List.range (uniqueRowTable (edgeRows cells)).length).filter fun g =>
          !(bndIndOf cells).getD g false }
  else Except.error Err.tooManyCellsPerEdge

/-- `self._edges_cells` (adjacency rows for degree-1 and degree-2 edges) and
`self._edge_gid_to_edge_list` as produced by `MeshTri._compute_edges_cells`. -/
structure AdjData where
  bndAdj : List ℕ
  intAdj : List (ℕ × ℕ)
  gidToEdgeList : List (ℕ × ℕ)
deriving DecidableEq, Repr, Inhabited

/-- Flattened `self.cells["edges"].flat` (cell-major, C order). -/
def cellsEdgesFlat (ed : EdgeData) : List ℕ :=
  ed.cellsEdges.flatMap fun t => [t.fst3, t.snd3, t.trd3]

/-- Positions of gid `g` in the flattened cell→edge table, ascending.  The
source obtains them through `numpy.argsort` of the flat array; for the equal
keys of one gid the ascending flat order is the stable order. -/
def gidPositions (ed : EdgeData) (g : ℕ) : List ℕ :=
  (List.range (cellsEdgesFlat ed).length).filter fun j => (cellsEdgesFlat ed).getD j 0 == g

/-- `MeshTri._compute_edges_cells`: for every edge gid the adjacent cells
(`flat_position / 3`), plus the `(count, index-within-class)` table; the final
`assert l1 + l2 == len(count)` fails when some gid has a count outside {1, 2}. -/
def computeAdjData (ed : EdgeData) : Except Err AdjData :=
  let n := ed.edgesNodes.length
  if (List.range n).all (fun g => (gidPositions ed g).length == 1 ||
      (gidPositions ed g).length == 2) then
    Except.ok
      { bndAdj := ((List.range n).filter fun g => (gidPositions ed g).length == 1).map
          fun g => (gidPositions ed g).getD 0 0 / 3
        intAdj := ((List.range n).filter fun g => (gidPositions ed g).length == 2).map
          fun g => ((gidPositions ed g).getD 0 0 / 3, (gidPositions ed g).getD 1 0 / 3)
        gidToEdgeList := (List.range n).map fun g =>
          if (gidPositions ed g).length == 1 then
            (1, ((List.range g).filter fun h => (gidPositions ed h).length == 1).length)
          else
            (2, ((List.range g).filter fun h => (gidPositions ed h).length == 2).length) }
  else Except.error Err.adjCountInvariant

/-- `_mirror_point`: mirror `p0` across the line `p1 -- p2`; also returns the
foot point `q` of the perpendicular. -/
def mirrorPoint (p0 p1 p2 : Vec) : Vec × Vec :=
  let den := dotV (subV p2 p1) (subV p2 p1)
  let alpha := dotV (subV p0 p1) (subV p2 p1) / den
  let q := addV p1 (smulV alpha (subV p2 p1))
  (subV (smulV 2 q) p0, q)

def tol14 : ℚ := 1 / 10 ^ 14

def tol10 : ℚ := 1 / 10 ^ 10

/-- The per-triangle ce-ratio triple computed inside `_isosceles_ce_ratios`
(the kernel applied to the cyclically shifted dot products). -/
def isoCeOf (t : Vec × Vec × Vec) : Tri3 ℚ :=
  let e0 := subV t.2.2 t.2.1
  let e1 := subV t.1 t.2.2
  let e2 := subV t.2.1 t.1
  (triAreaCeKernel (dotV e1 e2) (dotV e2 e0) (dotV e0 e1)).2

/-- First assertion of `_isosceles_ce_ratios`: the two edges `p0--p1`, `p0--p2`
have (numerically) equal squared lengths. -/
def isoPremise (t : Vec × Vec × Vec) : Bool :=
  let e1 := subV t.1 t.2.2
  let e2 := subV t.2.1 t.1
  decide (|dotV e2 e2 - dotV e1 e1| < tol14)

/-- Second assertion of `_isosceles_ce_ratios`: the two ratios sharing the
mirrored base edge agree within the relative tolerance `1e-10`. -/
def isoWithinTol (t : Vec × Vec × Vec) : Bool :=
  decide (|(isoCeOf t).snd3 - (isoCeOf t).trd3| < tol10 * (isoCeOf t).snd3)

/-- `_isosceles_ce_ratios`: rows `0` and `1` of the kernel's ratio table after
both (vectorised) assertions. -/
def isoCeRatios (triples : List (Vec × Vec × Vec)) : Except Err (List ℚ × List ℚ) :=
  if triples.all isoPremise then
    if triples.all isoWithinTol then
      Except.ok (triples.map fun t => (isoCeOf t).fst3, triples.map fun t => (isoCeOf t).snd3)
    else Except.error Err.asymmetricCeRatios
  else Except.error Err.isoscelesPremise

/-- State of `FlatCellCorrector`. -/
structure FccData where
  cells : List Cell
  flatLocal : List ℕ
  p0Local : List ℕ
  p1Local : List ℕ
  p2Local : List ℕ
  p0Id : List ℕ
  p1Id : List ℕ
  p2Id : List ℕ
  p0 : List Vec
  p1 : List Vec
  p2 : List Vec
  ghost : List Vec
  qFoot : List Vec
  ce1row0 : List ℚ
  ce1row1 : List ℚ
  ce2row0 : List ℚ
  ce2row1 : List ℚ
  ghostEdgeLen2 : List ℚ
deriving DecidableEq, Repr, Inhabited

/-- The list of isosceles triangles `(P0, P1, P2)` handed to
`_isosceles_ce_ratios` by `FlatCellCorrector.__init__`:
`(concat [p1, p2], concat [p0, p0], concat [ghost, ghost])`. -/
def fccIsoTriples (cells : List Cell) (flatLocal : List ℕ) (N : List Vec) :
    List (Vec × Vec × Vec) :=
  let p0 := (List.zip cells flatLocal).map fun (c, f) => nodeAt N (c.get f)
  let p1 := (List.zip cells flatLocal).map fun (c, f) => nodeAt N (c.get (f + 1))
  let p2 := (List.zip cells flatLocal).map fun (c, f) => nodeAt N (c.get (f + 2))
  let ghost := (List.zip p0 (List.zip p1 p2)).map fun (a, b, c) => (mirrorPoint a b c).1
  List.zip (p1 ++ p2) (List.zip (p0 ++ p0) (ghost ++ ghost))

/-- `FlatCellCorrector.__init__`. -/
def fccConstruct (cells : List Cell) (flatLocal : List ℕ) (N : List Vec) :
    Except Err FccData := do
  let p0Local := flatLocal
  let p1Local := flatLocal.map fun f => (f + 1) % 3
  let p2Local := flatLocal.map fun f => (f + 2) % 3
  let p0Id := (List.zip cells p0Local).map fun (c, l) => c.get l
  let p1Id := (List.zip cells p1Local).map fun (c, l) => c.get l
  let p2Id := (List.zip cells p2Local).map fun (c, l) => c.get l
  let p0 := p0Id.map (nodeAt N)
  let p1 := p1Id.map (nodeAt N)
  let p2 := p2Id.map (nodeAt N)
  let mir := (List.zip p0 (List.zip p1 p2)).map fun (a, b, c) => mirrorPoint a b c
  let ghost := mir.map (·.1)
  let qFoot := mir.map (·.2)
  let rows ← isoCeRatios (fccIsoTriples cells flatLocal N)
  let n := p0.length
  Except.ok
    { cells := cells
      flatLocal := flatLocal
      p0Local := p0Local
      p1Local := p1Local
      p2Local := p2Local
      p0Id := p0Id
      p1Id := p1Id
      p2Id := p2Id
      p0 := p0
      p1 := p1
      p2 := p2
      ghost := ghost
      qFoot := qFoot
      ce1row0 := rows.1.take n
      ce1row1 := rows.2.take n
      ce2row0 := rows.1.drop n
      ce2row1 := rows.2.drop n
      ghostEdgeLen2 := (List.zip ghost p0).map fun (g, p) => dotV (subV g p) (subV g p) }

/-- `FlatCellCorrector.get_ce_ratios`: `0` for the flat edge, the two
mirror-derived halves for the other two local edges. -/
def fccGetCeRatios (f : FccData) : List (Tri3 ℚ) :=
  (List.range f.cells.length).map fun j =>
    (((⟨0, 0, 0⟩ : Tri3 ℚ).set (f.p0Local.getD j 0) 0).set (f.p1Local.getD j 0)
        (f.ce2row1.getD j 0)).set (f.p2Local.getD j 0) (f.ce1row1.getD j 0)

/-- `FlatCellCorrector.get_control_volumes` flattened to scatter-add pairs
(node id, contribution), in the row-major order of `numpy.add.at`. -/
def fccCvPairs (f : FccData) : List (ℕ × ℚ) :=
  (List.range f.cells.length).flatMap fun j =>
    let e1 := subV (f.p0.getD j []) (f.p2.getD j [])
    let e2 := subV (f.p1.getD j []) (f.p0.getD j [])
    let a := 1 / 4 * f.ce1row0.getD j 0 * f.ghostEdgeLen2.getD j 0
    let b := 1 / 4 * f.ce2row0.getD j 0 * f.ghostEdgeLen2.getD j 0
    let c := 1 / 4 * f.ce1row1.getD j 0 * dotV e2 e2
    let d := 1 / 4 * f.ce2row1.getD j 0 * dotV e1 e1
    [(f.p0Id.getD j 0, a), (f.p0Id.getD j 0, b), (f.p0Id.getD j 0, c),
     (f.p1Id.getD j 0, c), (f.p0Id.getD j 0, d), (f.p2Id.getD j 0, d)]

/-- Elementwise product with numpy 1-d broadcasting: equal lengths multiply
elementwise, a length-1 operand broadcasts, anything else is a shape error. -/
def bmul (a b : List ℚ) : Option (List ℚ) :=
  if a.length = b.length then some (List.zipWith (· * ·) a b)
  else if a.length = 1 then some (b.map fun x => a.getD 0 0 * x)
  else if b.length = 1 then some (a.map fun x => x * b.getD 0 0)
  else none

/-- `FlatCellCorrector.surface_areas`.  Translated with the source's actual
indexing: `cv1 = self.ce_ratios1[:, 0] * ghostedge_length` takes the first
column (a length-2 vector) and broadcasts it against the per-cell ghost edge
lengths, and `numpy.linalg.norm(self.q - self.p1)` is a scalar Frobenius norm
over all cells.  `none` models the numpy shape error raised when the broadcast
is impossible. -/
def fccSurfaceAreas (f : FccData) : Option (List (List ℕ) × List (List ℚ)) := do
  let gl := f.ghostEdgeLen2.map ratSqrt
  let col1 : List ℚ := [f.ce1row0.getD 0 0, f.ce1row1.getD 0 0]
  let col2 : List ℚ := [f.ce2row0.getD 0 0, f.ce2row1.getD 0 0]
  let cv1 ← bmul col1 gl
  let cv2 ← bmul col2 gl
  let norm1 := ratSqrt (((List.zip f.qFoot f.p1).map fun (q, p) =>
    dotV (subV q p) (subV q p)).sum)
  let norm2 := ratSqrt (((List.zip f.qFoot f.p2).map fun (q, p) =>
    dotV (subV q p) (subV q p)).sum)
  let ids0 := (List.range f.cells.length).map fun j => [f.p0Id.getD j 0, f.p0Id.getD j 0]
  let ids1 := (List.range f.cells.length).map fun j => [f.p1Id.getD j 0, f.p2Id.getD j 0]
  let vals0 := (List.zip cv1 cv2).map fun (x, y) => [x, y]
  let vals1 := (List.zip cv1 cv2).map fun (x, y) => [norm1 - x, norm2 - y]
  some (ids0 ++ ids1, vals0 ++ vals1)

/-- `FlatCellCorrector.integral_x` flattened to scatter-add pairs
(node id, vector contribution), row-major. -/
def fccIntegralXPairs (f : FccData) : List (ℕ × Vec) :=
  (List.range f.cells.length).flatMap fun j =>
    let p0 := f.p0.getD j []
    let p1 := f.p1.getD j []
    let p2 := f.p2.getD j []
    let e0 := subV p2 p1
    let e1 := subV p0 p2
    let e2 := subV p1 p0
    let l1 := 1 / 2 * dotV e2 e2 / dotV e0 (smulV (-1) e2)
    let l2 := 1 / 2 * dotV e1 e1 / dotV e0 (smulV (-1) e1)
    let q1 := addV p1 (smulV l1 (subV p2 p1))
    let q2 := addV p2 (smulV l2 (subV p1 p2))
    let em1 := smulV (1 / 2) (addV p0 p2)
    let em2 := smulV (1 / 2) (addV p1 p0)
    let areaA1 := 1 / 4 * f.ce1row0.getD j 0 * f.ghostEdgeLen2.getD j 0
    let areaA2 := 1 / 4 * f.ce2row0.getD j 0 * f.ghostEdgeLen2.getD j 0
    let areaB1 := 1 / 4 * f.ce1row1.getD j 0 * dotV e2 e2
    let areaB2 := 1 / 4 * f.ce2row1.getD j 0 * dotV e1 e1
    let qj := f.qFoot.getD j []
    [(f.p0Id.getD j 0, smulV (areaA1 / 3) (addV (addV p0 qj) q1)),
     (f.p0Id.getD j 0, smulV (areaA2 / 3) (addV (addV p0 qj) q2)),
     (f.p0Id.getD j 0, smulV (areaB1 / 3) (addV (addV p0 q1) em2)),
     (f.p1Id.getD j 0, smulV (areaB1 / 3) (addV (addV p1 q1) em2)),
     (f.p0Id.getD j 0, smulV (areaB2 / 3) (addV (addV p0 q2) em1)),
     (f.p2Id.getD j 0, smulV (areaB2 / 3) (addV (addV p2 q2) em1))]

/-- Flat-cell-correction mode. -/
inductive FccMode where
  | boundary
  | full
deriving DecidableEq, Repr

/-- The mesh state.  `nodeCoords` and the derived `halfEdge`/`eiDotEi`/
`eiDotEj` arrays are pure functions of `(nodeCoords, cellsNodes)` (both
`__init__` and the incremental `_update_cell_values` patch compute them by the
same formulas, so the stored arrays always equal the recomputation);
`ceRatios` and `cellVolumes` are state because the flat-cell corrector
overwrites ratio columns at construction time.  `Option` fields model the
lazily built structures (`None` in Python). -/
structure Mesh where
  nodeCoords : List Vec
  cellsNodes : List Cell
  cellVolumes : List ℚ
  ceRatios : List (Tri3 ℚ)
  fccType : Option FccMode
  fcc : Option FccData
  regularCells : List ℕ
  edgeData : Option EdgeData
  adjData : Option AdjData
  isBoundaryNode : Option (List Bool)
  isBoundaryFace : Option (List (Tri3 Bool))
  ceFull : Option (List ℚ)
  interiorCe : Option (List ℚ)
deriving DecidableEq, Repr, Inhabited

/-- A cell is inside the node table. -/
def cellInBounds (n : ℕ) (c : Cell) : Bool :=
  c.fst3 < n && c.snd3 < n && c.trd3 < n

def cellHasNode (c : Cell) (nid : ℕ) : Bool :=
  c.fst3 == nid || c.snd3 == nid || c.trd3 == nid

/-- The per-(local edge, cell) flags `edge_needs_fcc` of `MeshTri.__init__`. -/
def edgeNeedsFcc (mode : FccMode) (ce : List (Tri3 ℚ)) (ed : EdgeData) (k i : ℕ) : Bool :=
  match mode with
  | FccMode.full => decide ((ce.getD i ⟨0, 0, 0⟩).get k < 0)
  | FccMode.boundary =>
      decide ((ce.getD i ⟨0, 0, 0⟩).get k < 0) && (ed.isBndEdge.getD i ⟨false, false, false⟩).get k

/-- `MeshTri.__init__` (with `sort_cells=False`).  Orphan nodes are a fatal
precondition failure; a cell id outside the node table is the numpy
`IndexError` of `is_used[cells] = True`. -/
def meshInit (nodes : List Vec) (cells : List Cell) (fccType : Option FccMode) :
    Except Err Mesh := do
  if cells.all (cellInBounds nodes.length) then
    if (List.range nodes.length).all (fun nid => cells.any (cellHasNode · nid)) then
      let vols := cells.map fun c => (cellVolCe nodes c).1
      let ce := cells.map fun c => (cellVolCe nodes c).2
      match fccType with
      | none =>
          Except.ok
            { nodeCoords := nodes, cellsNodes := cells, cellVolumes := vols,
              ceRatios := ce, fccType := none, fcc := none,
              regularCells := List.range cells.length,
              edgeData := none, adjData := none, isBoundaryNode := none,
              isBoundaryFace := none, ceFull := none, interiorCe := none }
      | some mode => do
          let ed ← match mode with
            | FccMode.boundary => computeEdgeData cells
            | FccMode.full => Except.ok default
          let needs := fun k i => edgeNeedsFcc mode ce ed k i
          let fccPairs := (List.range 3).flatMap fun k =>
            ((List.range cells.length).filter fun i => needs k i).map fun i => (k, i)
          let fccLocal := fccPairs.map (·.1)
          let fccCells := fccPairs.map (·.2)
          let regular := (List.range cells.length).filter fun i =>
            !(needs 0 i || needs 1 i || needs 2 i)
          let f ← fccConstruct (fccCells.map fun i => cells.getD i ⟨0, 0, 0⟩) fccLocal nodes
          let ceCorr := (List.zip fccCells (fccGetCeRatios f)).foldl
            (fun (acc : List (Tri3 ℚ)) (p : ℕ × Tri3 ℚ) => acc.set p.1 p.2) ce
          Except.ok
            { nodeCoords := nodes, cellsNodes := cells, cellVolumes := vols,
              ceRatios := ceCorr, fccType := some mode, fcc := some f,
              regularCells := regular,
              edgeData := match mode with
                | FccMode.boundary => some ed
                | FccMode.full => none,
              adjData := none, isBoundaryNode := none, isBoundaryFace := none,
              ceFull := none, interiorCe := none }
    else Except.error Err.unusedNode
  else Except.error Err.indexOutOfRange

/-- Lazy `create_edges` (also resets `_edges_cells` and
`_edge_gid_to_edge_list` when it fires). -/
def ensureEdges (m : Mesh) : Except Err (EdgeData × Mesh) :=
  match m.edgeData with
  | some ed => Except.ok (ed, m)
  | none => do
      let ed ← computeEdgeData m.cellsNodes
      Except.ok (ed, { m with edgeData := some ed, adjData := none })

/-- `is_boundary_node` as recomputed by `mark_boundary` from the current
`idx_hierarchy` and the stored per-half-edge boundary mask. -/
def boundaryNodeMarks (numNodes : ℕ) (cells : List Cell) (ed : EdgeData) : List Bool :=
  (List.range numNodes).map fun nid =>
    (List.range cells.length).any fun i =>
      (List.range 3).any fun k =>
        (ed.isBndEdge.getD i ⟨false, false, false⟩).get k &&
          ((cells.getD i ⟨0, 0, 0⟩).get (k + 1) == nid ||
            (cells.getD i ⟨0, 0, 0⟩).get (k + 2) == nid)

/-- `MeshTri.mark_boundary`. -/
def markBoundaryM (m : Mesh) : Except Err (EdgeData × Mesh) := do
  let (ed, m1) ← ensureEdges m
  Except.ok (ed, { m1 with
    isBoundaryNode := some (boundaryNodeMarks m1.nodeCoords.length m1.cellsNodes ed)
    isBoundaryFace := some ed.isBndEdge })

/-- The state `mark_boundary` leaves behind (on top of `ensureEdges`). -/
def withBoundaryMarks (m1 : Mesh) (ed : EdgeData) : Mesh :=
  { m1 with
    isBoundaryNode := some (boundaryNodeMarks m1.nodeCoords.length m1.cellsNodes ed)
    isBoundaryFace := some ed.isBndEdge }

/-- `fastfunc.add.at(target, idx, vals)`: scatter-add, summing on repeated
indices (an out-of-range index would raise in numpy; the gid indices used
below are within range by construction). -/
def scatterAdd (init : List ℚ) (ps : List (ℕ × ℚ)) : List ℚ :=
  ps.foldl (fun t p => t.set p.1 (t.getD p.1 0 + p.2)) init

/-- All half-edge positions `(k, i)` in the k-major iteration order of
`self.cells["edges"].T`. -/
def halfEdgePositions (numCells : ℕ) : List (ℕ × ℕ) :=
  (List.range 3).flatMap fun k => (List.range numCells).map fun i => (k, i)

def gidAt (ed : EdgeData) (p : ℕ × ℕ) : ℕ :=
  (ed.cellsEdges.getD p.2 ⟨0, 0, 0⟩).get p.1

def ratioAt (ce : List (Tri3 ℚ)) (p : ℕ × ℕ) : ℚ :=
  (ce.getD p.2 ⟨0, 0, 0⟩).get p.1

/-- The scatter-add pairs of `get_ce_ratios_per_interior_edge`. -/
def scatterPairs (cells : List Cell) (ce : List (Tri3 ℚ)) (ed : EdgeData) :
    List (ℕ × ℚ) :=
  (halfEdgePositions cells.length).map fun p => (gidAt ed p, ratioAt ce p)

/-- `self._ce_ratios`: per-gid aggregated covolume-edge ratios. -/
def ceFullValue (cells : List Cell) (ce : List (Tri3 ℚ)) (ed : EdgeData) : List ℚ :=
  scatterAdd (List.replicate ed.edgesNodes.length 0) (scatterPairs cells ce ed)

/-- `self._ce_ratios[~self.is_boundary_edge_individual]`. -/
def interiorCeValue (cells : List Cell) (ce : List (Tri3 ℚ)) (ed : EdgeData) : List ℚ :=
  ((List.range ed.edgesNodes.length).filter fun g => !ed.bndInd.getD g false).map
    fun g => (ceFullValue cells ce ed).getD g 0

/-- `MeshTri.get_ce_ratios_per_interior_edge` (lazy, caching). -/
def getInteriorCe (m : Mesh) : Except Err (List ℚ × Mesh) :=
  match m.interiorCe with
  | some v => Except.ok (v, m)
  | none => do
      let (ed, m1) ← ensureEdges m
      let icr := interiorCeValue m1.cellsNodes m1.ceRatios ed
      Except.ok (icr, { m1 with
        ceFull := some (ceFullValue m1.cellsNodes m1.ceRatios ed)
        interiorCe := some icr })

/-- All half-edge incidences of edge gid `g` in the cell→edge table. -/
def incidences (numCells : ℕ) (ed : EdgeData) (g : ℕ) : List (ℕ × ℕ) :=
  (halfEdgePositions numCells).filter fun p => gidAt ed p == g

/-- The aggregated covolume-edge ratio of edge `g`, written as the claim
states it: the sum of the half-edge ratios contributed by the edge's
incidences (independently of the scatter-add implementation). -/
def aggCeRatio (cells : List Cell) (ce : List (Tri3 ℚ)) (ed : EdgeData) (g : ℕ) : ℚ :=
  ((incidences cells.length ed g).map (ratioAt ce)).sum

/-- The state after `get_ce_ratios_per_interior_edge` fills its caches. -/
def withInteriorCache (m1 : Mesh) (ed : EdgeData) : Mesh :=
  { m1 with
    ceFull := some (ceFullValue m1.cellsNodes m1.ceRatios ed)
    interiorCe := some (interiorCeValue m1.cellsNodes m1.ceRatios ed) }

/-- `MeshTri.num_delaunay_violations`. -/
def numDelaunayViolations (m : Mesh) : Except Err (ℕ × Mesh) := do
  let (icr, m1) ← getInteriorCe m
  Except.ok (icr.countP (fun x => decide (x < 0)), m1)

/-- `MeshTri.get_cell_partitions`:
`0.25 * self.ei_dot_ei * self.ce_ratios_per_half_edge`. -/
def cellPartitions (m : Mesh) : List (Tri3 ℚ) :=
  (List.range m.cellsNodes.length).map fun i =>
    let c := m.cellsNodes.getD i ⟨0, 0, 0⟩
    let r := m.ceRatios.getD i ⟨0, 0, 0⟩
    (⟨1 / 4 * eiDotEi m.nodeCoords c 0 * r.fst3,
      1 / 4 * eiDotEi m.nodeCoords c 1 * r.snd3,
      1 / 4 * eiDotEi m.nodeCoords c 2 * r.trd3⟩ : Tri3 ℚ)

/-- `MeshTri.get_control_volumes`: regular-cell scatter pairs
(`vals = [v[1]+v[2], v[0]+v[2], v[0]+v[1]]` per node of each regular cell). -/
def controlVolumePairs (m : Mesh) : List (ℕ × ℚ) :=
  m.regularCells.flatMap fun i =>
    let c := m.cellsNodes.getD i ⟨0, 0, 0⟩
    let v := (cellPartitions m).getD i ⟨0, 0, 0⟩
    [(c.fst3, v.snd3 + v.trd3), (c.snd3, v.fst3 + v.trd3), (c.trd3, v.fst3 + v.snd3)]

def controlVolumes (m : Mesh) : List ℚ :=
  let base := scatterAdd (List.replicate m.nodeCoords.length 0) (controlVolumePairs m)
  match m.fcc with
  | none => base
  | some f => scatterAdd base (fccCvPairs f)

/-- Modelled from the spec: the Geometry Kernel's
`circumcenter(cornerCoords[3], squaredEdgeLengths[3], pairwiseDotProducts[3])`,
the standard barycentric formula with weights `|eᵢ|² · dᵢ`. -/
def circumcenterOf (N : List Vec) (c : Cell) : Vec :=
  let alpha := fun k => eiDotEi N c k * eiDotEj N c k
  let s := alpha 0 + alpha 1 + alpha 2
  addV (addV (smulV (alpha 0 / s) (nodeAt N c.fst3)) (smulV (alpha 1 / s) (nodeAt N c.snd3)))
    (smulV (alpha 2 / s) (nodeAt N c.trd3))

/-- One `integral_x` contribution of `_compute_integral_x`:
`cell_partition · (corner + edge_midpoint + circumcenter)/3` for side `a`
(`0` or `1`) of local edge `k` of cell `i`. -/
def integralXContrib (m : Mesh) (a k i : ℕ) : Vec :=
  let c := m.cellsNodes.getD i ⟨0, 0, 0⟩
  let corner0 := nodeAt m.nodeCoords (c.get (k + 1))
  let corner1 := nodeAt m.nodeCoords (c.get (k + 2))
  let corner := if a = 0 then corner0 else corner1
  let mid := smulV (1 / 2) (addV corner0 corner1)
  let avg := smulV (1 / 3) (addV (addV corner mid) (circumcenterOf m.nodeCoords c))
  smulV (((cellPartitions m).getD i ⟨0, 0, 0⟩).get k) avg

/-- The regular-cell scatter pairs of `get_control_volume_centroids`:
`vals = [v[1,1]+v[0,2], v[1,2]+v[0,0], v[1,0]+v[0,1]]`, `ids = cell nodes`. -/
def cvCentroidPairs (m : Mesh) : List (ℕ × Vec) :=
  m.regularCells.flatMap fun i =>
    let c := m.cellsNodes.getD i ⟨0, 0, 0⟩
    [(c.fst3, addV (integralXContrib m 1 1 i) (integralXContrib m 0 2 i)),
     (c.snd3, addV (integralXContrib m 1 2 i) (integralXContrib m 0 0 i)),
     (c.trd3, addV (integralXContrib m 1 0 i) (integralXContrib m 0 1 i))]

def scatterAddV (init : List Vec) (ps : List (ℕ × Vec)) : List Vec :=
  ps.foldl (fun t p => t.set p.1 (addV (t.getD p.1 []) p.2)) init

def meshDim (m : Mesh) : ℕ := (m.nodeCoords.getD 0 []).length

def zeroVec (dim : ℕ) : Vec := List.replicate dim 0

/-- `MeshTri.get_control_volume_centroids`.  The accumulated position integral
is divided by the control volume of every node unconditionally
(`self._cv_centroids /= self.get_control_volumes()[:, None]`); a node with
zero control volume receives the non-finite result of the numpy division,
modelled as `none`. -/
def cvCentroids (m : Mesh) : List (Option Vec) :=
  let pairs := cvCentroidPairs m ++ (match m.fcc with
    | none => []
    | some f => fccIntegralXPairs f)
  let acc := scatterAddV (List.replicate m.nodeCoords.length (zeroVec (meshDim m))) pairs
  let cv := controlVolumes m
  (List.range m.nodeCoords.length).map fun nid =>
    if cv.getD nid 0 = 0 then none
    else some (smulV (1 / cv.getD nid 0) (acc.getD nid []))

/-- Modelled from the spec (`get_edge_lengths` of the base class, not among
the sources): per-half-edge Euclidean edge lengths. -/
def edgeLength (m : Mesh) (i k : ℕ) : ℚ :=
  ratSqrt (eiDotEi m.nodeCoords (m.cellsNodes.getD i ⟨0, 0, 0⟩) k)

/-- `MeshTri._compute_surface_areas(cell_ids)`: ids `(n, 3, 3)` and values
(half the two adjacent edge lengths per node, zero on the diagonal). -/
def computeSurfaceAreas (m : Mesh) (cellIds : List ℕ) :
    List (List (List ℕ)) × List (List (List ℚ)) :=
  (cellIds.map fun i =>
      let c := m.cellsNodes.getD i ⟨0, 0, 0⟩
      [[c.fst3, c.snd3, c.trd3], [c.fst3, c.snd3, c.trd3], [c.fst3, c.snd3, c.trd3]],
    cellIds.map fun i =>
      [[0, edgeLength m i 0 / 2, edgeLength m i 0 / 2],
       [edgeLength m i 1 / 2, 0, edgeLength m i 1 / 2],
       [edgeLength m i 2 / 2, edgeLength m i 2 / 2, 0]])

/-- `MeshTri.get_surface_areas`.  The source computes the regular-cell result
and then calls `numpy.append(self._surface_areas[0], ffc_ids)` and
`numpy.append(self._surface_areas[1], ffc_vals)`; `numpy.append` returns new
arrays and both return values are discarded, so the corrector contributions
never reach the returned pair. -/
def getSurfaceAreas (m : Mesh) : List (List (List ℕ)) × List (List (List ℚ)) :=
  computeSurfaceAreas m m.regularCells

/-- Monadic map over `Except` (explicit structural recursion). -/
def mapME {α β : Type} (f : α → Except Err β) : List α → Except Err (List β)
  | [] => Except.ok []
  | x :: xs => do
      let y ← f x
      let ys ← mapME f xs
      Except.ok (y :: ys)

/-- Monadic fold over `Except` (explicit structural recursion). -/
def foldME {σ α : Type} (f : σ → α → Except Err σ) : σ → List α → Except Err σ
  | s, [] => Except.ok s
  | s, x :: xs => do
      let s1 ← f s x
      foldME f s1 xs

/-- Local index of gid `g` in a cell's edge triple; the source asserts exactly
one match (`assert numpy.all(numpy.sum(hits, axis=2) == 1)` and the analogous
checks in `_update_cell_values`). -/
def uniqueMatchK (t : Tri3 ℕ) (g : ℕ) (e : Err) : Except Err ℕ :=
  match (List.range 3).filter fun k => t.get k == g with
  | [k] => Except.ok k
  | _ => Except.error e

/-- The recomputation part of `_update_cell_values`: per-cell volumes and
ce-ratios of the given cells are recomputed from scratch via the kernel. -/
def recomputeCells (m : Mesh) (cellIds : List ℕ) : Mesh :=
  { m with
    cellVolumes := cellIds.foldl
      (fun acc i => acc.set i (cellVolCe m.nodeCoords (m.cellsNodes.getD i ⟨0, 0, 0⟩)).1)
      m.cellVolumes
    ceRatios := cellIds.foldl
      (fun acc i => acc.set i (cellVolCe m.nodeCoords (m.cellsNodes.getD i ⟨0, 0, 0⟩)).2)
      m.ceRatios }

/-- The in-place patch of `self._interior_ce_ratios` in `_update_cell_values`:
the listed interior edges are reset to zero and re-summed from the half-edge
ratios of their two (possibly reassigned) adjacent cells. -/
def patchInteriorCe (m : Mesh) (interiorIds : List ℕ) : Except Err Mesh :=
  match m.interiorCe with
  | none => Except.ok m
  | some icr =>
      match m.edgeData, m.adjData with
      | some ed, some ad => do
          let icr0 := interiorIds.foldl (fun (t : List ℚ) e => t.set e 0) icr
          let icr1 ← foldME (fun (t : List ℚ) eid => do
              let g := ed.intGids.getD eid 0
              let pr := ad.intAdj.getD eid (0, 0)
              let k0 ← uniqueMatchK (ed.cellsEdges.getD pr.1 ⟨0, 0, 0⟩) g Err.patchMatchNotOne
              let k1 ← uniqueMatchK (ed.cellsEdges.getD pr.2 ⟨0, 0, 0⟩) g Err.patchMatchNotOne
              Except.ok (t.set eid (t.getD eid 0 + ratioAt m.ceRatios (k0, pr.1) +
                ratioAt m.ceRatios (k1, pr.2)))) icr0 interiorIds
          Except.ok { m with interiorCe := some icr1 }
      | _, _ => Except.error Err.missingEdges

/-- `MeshTri._update_cell_values` (the caches this method resets to `None`
are modelled as pure functions). -/
def updateCellValues (m : Mesh) (cellIds interiorIds : List ℕ) : Except Err Mesh :=
  patchInteriorCe (recomputeCells m cellIds) interiorIds

/-- `self._edges_cells` access of `_flip_edges`: needs edges to exist. -/
def ensureAdj (m : Mesh) : Except Err (EdgeData × AdjData × Mesh) :=
  match m.edgeData with
  | none => Except.error Err.missingEdges
  | some ed =>
      match m.adjData with
      | some ad => Except.ok (ed, ad, m)
      | none => do
          let ad ← computeAdjData ed
          Except.ok (ed, ad, { m with adjData := some ad })

def selectedIdx (mask : List Bool) : List ℕ :=
  (List.range mask.length).filter fun j => mask.getD j false

/-- The cells adjacent to the selected interior edges (with multiplicity). -/
def selectedCellList (ad : AdjData) (mask : List Bool) : List ℕ :=
  (selectedIdx mask).flatMap fun j =>
    [(ad.intAdj.getD j (0, 0)).1, (ad.intAdj.getD j (0, 0)).2]

/-- The batch precondition of `_flip_edges`
(`assert numpy.all(counts < 2), "Can flip at most one edge per cell."`). -/
def flipPrecondition (ad : AdjData) (mask : List Bool) : Bool :=
  (selectedCellList ad mask).all fun c => (selectedCellList ad mask).count c < 2

/-- Per-flip data of `_flip_edges` (adjacent cells, gid, local edge ids,
quadrilateral vertices, orientation flag, previous edge triples). -/
structure FlipRec where
  cellA : ℕ
  cellB : ℕ
  gid : ℕ
  lidA : ℕ
  lidB : ℕ
  v0 : ℕ
  v1 : ℕ
  v2 : ℕ
  v3 : ℕ
  eqOrient : Bool
  prevA : Tri3 ℕ
  prevB : Tri3 ℕ
deriving DecidableEq, Repr

def mkFlipRec (cells : List Cell) (ed : EdgeData) (pr : ℕ × ℕ) (g : ℕ) :
    Except Err FlipRec := do
  let lidA ← uniqueMatchK (ed.cellsEdges.getD pr.1 ⟨0, 0, 0⟩) g Err.hitsNotOne
  let lidB ← uniqueMatchK (ed.cellsEdges.getD pr.2 ⟨0, 0, 0⟩) g Err.hitsNotOne
  let cA := cells.getD pr.1 ⟨0, 0, 0⟩
  let cB := cells.getD pr.2 ⟨0, 0, 0⟩
  Except.ok
    { cellA := pr.1, cellB := pr.2, gid := g, lidA := lidA, lidB := lidB
      v0 := cA.get lidA, v1 := cB.get lidB, v2 := cA.get (lidA + 1), v3 := cA.get (lidA + 2)
      eqOrient := cA.get (lidA + 1) == cB.get (lidB + 2)
      prevA := ed.cellsEdges.getD pr.1 ⟨0, 0, 0⟩
      prevB := ed.cellsEdges.getD pr.2 ⟨0, 0, 0⟩ }

/-- One edge→cells adjacency rewrite of the `confs` loop in `_flip_edges`. -/
def adjRewrite (ad : AdjData) (p : ℕ × ℕ × ℕ) : Except Err AdjData :=
  let (eg, cc, dc) := p
  let ce := ad.gidToEdgeList.getD eg (0, 0)
  if ce.1 == 1 then
    if ad.bndAdj.getD ce.2 0 == cc then
      Except.ok { ad with bndAdj := ad.bndAdj.set ce.2 dc }
    else Except.error Err.boundaryAdjMismatch
  else if ce.1 == 2 then
    let pr := ad.intAdj.getD ce.2 (0, 0)
    if (pr.1 == cc) != (pr.2 == cc) then
      Except.ok { ad with
        intAdj := ad.intAdj.set ce.2 (if pr.1 == cc then (dc, pr.2) else (pr.1, dc)) }
    else Except.error Err.adjXor
  else Except.error Err.adjXor

/-- Body of `_flip_edges` after the batch precondition: rewrite the flipped
edges' node pairs, both cells' node and edge triples, patch the edge→cells
adjacency of the touched non-flipped edges, then incrementally update the
cell quantities and the interior aggregated ratios of the affected edges. -/
def flipEdgesCore (m : Mesh) (ed : EdgeData) (ad : AdjData) (mask : List Bool) :
    Except Err Mesh := do
  let sel := selectedIdx mask
  let recs ← mapME (fun j =>
    mkFlipRec m.cellsNodes ed (ad.intAdj.getD j (0, 0)) (ed.intGids.getD j 0)) sel
  let edgesNodes1 := recs.foldl
    (fun (t : List (ℕ × ℕ)) r => t.set r.gid (sortPair r.v0 r.v1)) ed.edgesNodes
  let cellsNodes1 := recs.foldl
    (fun (t : List Cell) r =>
      (t.set r.cellA ⟨r.v0, r.v1, r.v2⟩).set r.cellB ⟨r.v0, r.v1, r.v3⟩)
    m.cellsNodes
  let cellsEdges1 := recs.foldl
    (fun (t : List (Tri3 ℕ)) r =>
      let i0 : ℕ := if r.eqOrient then 1 else 2
      let i1 : ℕ := if r.eqOrient then 2 else 1
      (t.set r.cellA ⟨r.prevB.get (r.lidB + i0), r.prevA.get (r.lidA + 2), r.gid⟩).set
        r.cellB ⟨r.prevB.get (r.lidB + i1), r.prevA.get (r.lidA + 1), r.gid⟩)
    ed.cellsEdges
  let egidsA := recs.map fun r => r.prevA.get (r.lidA + 1)
  let egidsB := recs.map fun r =>
    r.prevB.get (r.lidB + (if r.eqOrient then 1 else 2))
  if (egidsA.all fun g => egidsA.count g == 1) &&
      (egidsB.all fun g => egidsB.count g == 1) then
    let ad1 ← foldME
      (fun acc (p : ℕ × FlipRec) => adjRewrite acc (p.1, p.2.cellA, p.2.cellB)) ad
      (List.zip egidsA recs)
    let ad2 ← foldME
      (fun acc (p : ℕ × FlipRec) => adjRewrite acc (p.1, p.2.cellB, p.2.cellA)) ad1
      (List.zip egidsB recs)
    let updCells := (List.range cellsNodes1.length).filter fun i =>
      recs.any fun r => r.cellA == i || r.cellB == i
    let candidates := updCells.flatMap fun i =>
      (List.range 3).filterMap fun k =>
        let ce := ad2.gidToEdgeList.getD ((cellsEdges1.getD i ⟨0, 0, 0⟩).get k) (0, 0)
        if ce.1 == 2 then some ce.2 else none
    let updInt := (List.range ad2.intAdj.length).filter fun e => candidates.contains e
    let m1 := { m with
      cellsNodes := cellsNodes1
      edgeData := some { ed with edgesNodes := edgesNodes1, cellsEdges := cellsEdges1 }
      adjData := some ad2 }
    updateCellValues m1 updCells updInt
  else Except.error Err.edgeListNotUnique

/-- `MeshTri._flip_edges`. -/
def flipEdgesM (m : Mesh) (mask : List Bool) : Except Err Mesh :=
  if m.fccType = some FccMode.full then Except.error Err.flipFullFcc
  else do
    let (ed, ad, m1) ← ensureAdj m
    if flipPrecondition ad mask then flipEdgesCore m1 ed ad mask
    else Except.error Err.atMostOneEdgePerCell

/-- `numpy.all(ce_ratios > 0)` over the per-half-edge ratio array. -/
def allCePos (ce : List (Tri3 ℚ)) : Bool :=
  ce.all fun t => decide (0 < t.fst3) && decide (0 < t.snd3) && decide (0 < t.trd3)

/-- `numpy.all(ce_ratios[~self.is_boundary_edge] > 0)`. -/
def interiorMaskAllPos (cells : List Cell) (ce : List (Tri3 ℚ)) (ed : EdgeData) : Bool :=
  (List.range cells.length).all fun i => (List.range 3).all fun k =>
    (ed.isBndEdge.getD i ⟨false, false, false⟩).get k ||
      decide (0 < (ce.getD i ⟨0, 0, 0⟩).get k)

/-- The `while numpy.any(needs_flipping)` loop of `flip_until_delaunay`,
counting flip steps.  The source has no iteration cap; `fuel` makes the
embedding total and `Err.outOfFuel` marks runs the fuel cannot settle. -/
def flipLoopGo : ℕ → Mesh → List Bool → ℕ → Except Err (ℕ × Mesh)
  | 0, m, needs, steps =>
      if needs.any id then Except.error Err.outOfFuel else Except.ok (steps, m)
  | fuel + 1, m, needs, steps =>
      if needs.any id then do
        let m1 ← flipEdgesM m needs
        let (icr, m2) ← getInteriorCe m1
        flipLoopGo fuel m2 (icr.map fun x => decide (x < 0)) (steps + 1)
      else Except.ok (steps, m)

/-- `MeshTri.flip_until_delaunay`, returning the number of flip steps
(`num_flip_steps`) together with the final state. -/
def flipUntilDelaunayAux (fuel : ℕ) (m : Mesh) : Except Err (ℕ × Mesh) :=
  if m.fccType = some FccMode.full then Except.error Err.flipFullFcc
  else if allCePos m.ceRatios then Except.ok (0, m)
  else do
    let (ed, m1) ← markBoundaryM m
    if interiorMaskAllPos m1.cellsNodes m1.ceRatios ed then Except.ok (0, m1)
    else do
      let (icr, m2) ← getInteriorCe m1
      flipLoopGo fuel m2 (icr.map fun x => decide (x < 0)) 0

/-- `MeshTri.flip_until_delaunay` proper: returns `num_flip_steps > 1`. -/
def flipUntilDelaunay (fuel : ℕ) (m : Mesh) : Except Err (Bool × Mesh) :=
  (flipUntilDelaunayAux fuel m).map fun p => (decide (1 < p.1), p.2)

deriving instance DecidableEq for Except

unseal Rat.mul Rat.add Rat.sub Rat.inv List.mergeSort List.merge

/-- Flat boundary triangle (the obtuse edge opposite the apex `(2,1)` is a
boundary edge with negative covolume-edge ratio), constructed with
flat-cell-correction mode `"boundary"`. -/
def flatNodes : List Vec := [[2, 1], [0, 0], [4, 0]]

def flatCells : List Cell := [⟨0, 1, 2⟩]

def flatMesh : Mesh :=
  (meshInit flatNodes flatCells (some FccMode.boundary)).toOption.getD default

/-- Two-cell mesh whose node `0` accumulates control volume exactly `0`:
the positive partition contributions of the right triangle `(0,0),(1,0),(0,1)`
cancel the negative ones of the obtuse triangle `(0,0),(1,0),(2,-1)`. -/
def zcvNodes : List Vec := [[0, 0], [1, 0], [0, 1], [2, -1]]

def zcvCells : List Cell := [⟨0, 1, 2⟩, ⟨0, 1, 3⟩]

def zcvMesh : Mesh := (meshInit zcvNodes zcvCells none).toOption.getD default

def zcvEdgeData : EdgeData :=
  (computeEdgeData zcvMesh.cellsNodes).toOption.getD default

/-- Convex quadrilateral `(0,0), (1,-3), (1,1), (-1,4)` around the interior
node `(0,1)`; the diagonal from `(1,-3)` to `(0,1)` is the only interior edge
with negative aggregated covolume-edge ratio, so `flip_until_delaunay`
performs exactly one flip and converges. -/
def quadNodes : List Vec := [[0, 0], [1, -3], [1, 1], [-1, 4], [0, 1]]

def quadCells : List Cell := [⟨0, 1, 4⟩, ⟨1, 2, 4⟩, ⟨2, 3, 4⟩, ⟨3, 0, 4⟩]

def quadMesh : Mesh := (meshInit quadNodes quadCells none).toOption.getD default

def quadEdgeData : EdgeData :=
  (computeEdgeData quadMesh.cellsNodes).toOption.getD default

/-- State after the first (convergent) `flip_until_delaunay` run. -/
def quadMesh1 : Mesh := ((flipUntilDelaunayAux 9 quadMesh).toOption.getD (0, default)).2

/-- State after running `flip_until_delaunay` a second time. -/
def quadMesh2 : Mesh := ((flipUntilDelaunayAux 9 quadMesh1).toOption.getD (0, default)).2

/-- Five nodes, three cells: the two interior edges `(0,2)` and `(1,2)` are
both adjacent to cell `0`, so selecting both for one flip batch violates the
batch precondition of `_flip_edges`. -/
def fanNodes : List Vec := [[0, 0], [1, 0], [1, 1], [0, 1], [2, 0]]

def fanCells : List Cell := [⟨0, 1, 2⟩, ⟨0, 2, 3⟩, ⟨1, 4, 2⟩]

/-- The fan mesh with edges and edge→cells adjacency already built (the state
from which `_flip_edges` is entered). -/
def fanMesh : Mesh :=
  ((((meshInit fanNodes fanCells none).bind ensureEdges).bind fun p =>
    ensureAdj p.2).toOption.map fun q => q.2.2).getD default

def fanAdjData : AdjData := fanMesh.adjData.getD default

def fanEdgeData : EdgeData := fanMesh.edgeData.getD default

/-- Non-obtuse right triangle, constructed with flat-cell-correction mode
`"full"` (no cell needs correction; the corrector holds the empty cell set). -/
def rightNodes : List Vec := [[0, 0], [1, 0], [0, 1]]

def rightCells : List Cell := [⟨0, 1, 2⟩]

def rightFullMesh : Mesh :=
  (meshInit rightNodes rightCells (some FccMode.full)).toOption.getD default

def rightFullEdgeData : EdgeData :=
  (computeEdgeData rightFullMesh.cellsNodes).toOption.getD default

set_option maxRecDepth 8000 in
/-- C1: `get_surface_areas` must combine the regular-cell surface areas with
the `FlatCellCorrector.surface_areas` contributions, never dropping them.  On
the flat boundary triangle the sole cell is corrected, so the regular part is
empty, while the corrector produces four nonempty `(index, value)` rows; the
returned result is nevertheless the bare regular part: the source calls
`numpy.append(self._surface_areas[0], ffc_ids)` (and likewise for the values)
and discards both return values, so the corrector's contributions never reach
the result.  This theorem evaluates the code at the failing input. -/
theorem c1SurfaceAreasDropCorrectorContributions :
    meshInit flatNodes flatCells (some FccMode.boundary) = Except.ok flatMesh ∧
    flatMesh.regularCells = [] ∧
    getSurfaceAreas flatMesh = ([], []) ∧
    flatMesh.fcc.map fccSurfaceAreas =
      some (some ([[0, 0], [1, 2]],
        [[3 / 2, 3 / 2], [1, 1], [1 / 2, 1 / 2], [1, 1]])) := by decide

set_option maxRecDepth 8000 in
/-- C2 counterexample: on `zcvMesh`, node `0` has accumulated control volume
exactly `0`, yet `get_control_volume_centroids` does not surface any error
condition: it performs the division for every node and returns an array in
which node `0` carries the undefined (NaN/inf) quotient, modelled as `none`,
while all other entries are ordinary finite values. -/
theorem c2CounterexampleSilentZeroDivision :
    meshInit zcvNodes zcvCells none = Except.ok zcvMesh ∧
    controlVolumes zcvMesh = [0, 2, 1 / 4, -1 / 4] ∧
    cvCentroids zcvMesh =
      [none, some [5 / 6, -1 / 2], some [1 / 6, 2 / 3], some [1 / 2, -1]] := by decide

set_option maxRecDepth 8000 in
/-- C5 counterexample: on `quadMesh` the first `flip_until_delaunay` run
performs one flip and converges; running it a second time performs zero flips
and returns `False`, but does not leave the mesh unchanged: `mark_boundary`
recomputes `is_boundary_node` from the post-flip cell table through the stale
per-half-edge boundary mask (`_flip_edges` does not update
`self.is_boundary_edge` positionally), and boundary node `1` loses its mark. -/
theorem c5CounterexampleSecondRunChangesState :
    meshInit quadNodes quadCells none = Except.ok quadMesh ∧
    flipUntilDelaunayAux 9 quadMesh = Except.ok (1, quadMesh1) ∧
    flipUntilDelaunay 9 quadMesh1 = Except.ok (false, quadMesh2) ∧
    quadMesh2.isBoundaryNode ≠ quadMesh1.isBoundaryNode ∧
    quadMesh1.isBoundaryNode = some [true, true, true, true, false] ∧
    quadMesh2.isBoundaryNode = some [true, false, true, true, false] := by decide

set_option maxRecDepth 8000 in
/-- C10 counterexample: a mesh in full flat-cell-correction mode whose
interior-edge set is empty (so every interior aggregated ratio is trivially
positive); `flip_until_delaunay` does not return `False` but fails the
`assert self.fcc_type != "full"` at its entry. -/
theorem c10CounterexampleFullModeAsserts :
    meshInit rightNodes rightCells (some FccMode.full) = Except.ok rightFullMesh ∧
    computeEdgeData rightFullMesh.cellsNodes = Except.ok rightFullEdgeData ∧
    rightFullEdgeData.intGids = [] ∧
    flipUntilDelaunay 5 rightFullMesh = Except.error Err.flipFullFcc := by decide

theorem getD_map_range {α : Type} (f : ℕ → α) {n i : ℕ} (h : i < n) (d : α) :
    ((List.range n).map f).getD i d = f i := by
  simp [List.getD_eq_getElem?_getD, List.getElem?_map, List.getElem?_range h]

theorem getD_map_get {α β : Type} (f : α → β) (l : List α) {g : ℕ} (hg : g < l.length)
    (d : β) : (l.map f).getD g d = f (l.get ⟨g, hg⟩) := by
  simp [List.getD_eq_getElem?_getD, List.getElem?_map, List.getElem?_eq_getElem hg,
    List.get_eq_getElem]

theorem getD_set_self (l : List ℚ) (i : ℕ) (v : ℚ) (h : i < l.length) :
    (l.set i v).getD i 0 = v := by
  simp [List.getD_eq_getElem?_getD, List.getElem?_set_self, h]

theorem getD_set_other (l : List ℚ) {i j : ℕ} (v : ℚ) (h : i ≠ j) :
    (l.set i v).getD j 0 = l.getD j 0 := by
  simp [List.getD_eq_getElem?_getD, List.getElem?_set_ne h]

theorem getD_replicate_zero (n g : ℕ) : (List.replicate n (0 : ℚ)).getD g 0 = 0 := by
  rcases lt_or_le g n with h | h
  · simp [List.getD_eq_getElem?_getD, List.getElem?_eq_getElem, h,
      List.length_replicate, List.getElem_replicate]
  · simp [List.getD_eq_getElem?_getD, List.getElem?_eq_none, List.length_replicate, h]

theorem scatterAdd_length (init : List ℚ) (ps : List (ℕ × ℚ)) :
    (scatterAdd init ps).length = init.length := by
  induction ps generalizing init with
  | nil => rfl
  | cons p ps ih =>
      rw [show scatterAdd init (p :: ps) =
        scatterAdd (init.set p.1 (init.getD p.1 0 + p.2)) ps from rfl, ih, List.length_set]

/-- Scatter-add semantics: the accumulated value at `g` is the initial value
plus the sum of all contributions whose index is `g` (duplicates summed,
never overwritten). -/
theorem scatterAdd_getD (init : List ℚ) (ps : List (ℕ × ℚ)) (g : ℕ)
    (hb : ∀ p ∈ ps, p.1 < init.length) :
    (scatterAdd init ps).getD g 0 =
      init.getD g 0 + (((ps.filter fun p => p.1 == g).map (·.2)).sum) := by
  induction ps generalizing init with
  | nil => simp [scatterAdd]
  | cons p ps ih =>
      have hp : p.1 < init.length := hb p (List.mem_cons_self p ps)
      have hstep : scatterAdd init (p :: ps) =
          scatterAdd (init.set p.1 (init.getD p.1 0 + p.2)) ps := rfl
      rw [hstep, ih _ fun q hq => by
        simpa using hb q (List.mem_cons_of_mem p hq)]
      by_cases hpg : p.1 = g
      · subst hpg
        rw [getD_set_self _ _ _ hp]
        simp only [List.filter_cons, beq_self_eq_true, if_pos]
        simp [List.map_cons, List.sum_cons]
        ring
      · rw [getD_set_other _ _ hpg]
        simp only [List.filter_cons]
        have : (p.1 == g) = false := beq_eq_false_iff_ne.mpr hpg
        simp [this]

theorem mem_halfEdgePositions {n : ℕ} {p : ℕ × ℕ} :
    p ∈ halfEdgePositions n ↔ p.1 < 3 ∧ p.2 < n := by
  cases p with
  | mk k i =>
      simp only [halfEdgePositions, List.mem_flatMap, List.mem_map, List.mem_range]
      constructor
      · rintro ⟨k', hk', i', hi', h⟩
        cases h
        exact ⟨hk', hi'⟩
      · rintro ⟨hk, hi⟩
        exact ⟨k, hk, i, hi, rfl⟩

theorem edgeRows_eq_map (cells : List Cell) :
    edgeRows cells = (halfEdgePositions cells.length).map fun p => edgeRow cells p.1 p.2 := by
  simp [edgeRows, halfEdgePositions, List.map_flatMap, List.map_map, Function.comp_def]

theorem uniqueRowTable_nodup (rows : List (ℕ × ℕ)) : (uniqueRowTable rows).Nodup :=
  (List.mergeSort_perm rows.dedup pairLeB).symm.nodup (List.nodup_dedup rows)

theorem mem_uniqueRowTable {rows : List (ℕ × ℕ)} {x : ℕ × ℕ} :
    x ∈ uniqueRowTable rows ↔ x ∈ rows := by
  rw [uniqueRowTable, (List.mergeSort_perm rows.dedup pairLeB).mem_iff, List.mem_dedup]

theorem idxOf_lt_length {l : List (ℕ × ℕ)} {r : ℕ × ℕ} (h : r ∈ l) :
    idxOf l r < l.length := by
  induction l with
  | nil => cases h
  | cons x xs ih =>
      rw [idxOf]
      by_cases hx : x = r
      · simp [hx]
      · rcases List.mem_cons.mp h with h' | h'
        · exact absurd h'.symm hx
        · simpa [hx] using ih h'

theorem idxOf_get {l : List (ℕ × ℕ)} {r : ℕ × ℕ} (h : r ∈ l)
    (hlt : idxOf l r < l.length) : l.get ⟨idxOf l r, hlt⟩ = r := by
  induction l with
  | nil => cases h
  | cons x xs ih =>
      by_cases hx : x = r
      · simp [idxOf, hx]
      · rcases List.mem_cons.mp h with h' | h'
        · exact absurd h'.symm hx
        · have hlt' : idxOf xs r < xs.length := idxOf_lt_length h'
          simpa [idxOf, hx] using ih h' hlt'

theorem idxOf_of_get {l : List (ℕ × ℕ)} (H : l.Nodup) {g : ℕ} (hg : g < l.length) :
    idxOf l (l.get ⟨g, hg⟩) = g := by
  induction l generalizing g with
  | nil => cases hg
  | cons x xs ih =>
      cases g with
      | zero => simp [idxOf]
      | succ g' =>
          have hg' : g' < xs.length := Nat.lt_of_succ_lt_succ hg
          have hmem : xs.get ⟨g', hg'⟩ ∈ xs := List.get_mem xs g' hg'
          have hx : x ≠ xs.get ⟨g', hg'⟩ := fun he =>
            (List.nodup_cons.mp H).1 (he ▸ hmem)
          have : (x :: xs).get ⟨g' + 1, hg⟩ = xs.get ⟨g', hg'⟩ := rfl
          rw [this, idxOf, if_neg hx, ih (List.nodup_cons.mp H).2 hg']

theorem idxOf_eq_iff_get {l : List (ℕ × ℕ)} (H : l.Nodup) {g : ℕ} (hg : g < l.length)
    {r : ℕ × ℕ} (hr : r ∈ l) : idxOf l r = g ↔ l.get ⟨g, hg⟩ = r := by
  constructor
  · intro h
    have hlt : idxOf l r < l.length := h ▸ hg
    have := idxOf_get hr hlt
    rwa [show (⟨idxOf l r, hlt⟩ : Fin l.length) = ⟨g, hg⟩ from Fin.ext h] at this
  · intro h
    rw [← h, idxOf_of_get H hg]

theorem countP_comp_map {α β : Type} (f : α → β) (p : β → Bool) (l : List α) :
    (l.map f).countP p = l.countP fun a => p (f a) := by
  induction l with
  | nil => rfl
  | cons x xs ih => simp [List.countP_cons, ih]

theorem computeEdgeData_ok_fields {cells : List Cell} {ed : EdgeData}
    (h : computeEdgeData cells = Except.ok ed) :
    ed.edgesNodes = uniqueRowTable (edgeRows cells) ∧
    ed.cellsEdges = cellsEdgesOf cells ∧
    ed.bndInd = bndIndOf cells ∧
    ed.intGids = (List.range (uniqueRowTable (edgeRows cells)).length).filter
      (fun g => !(bndIndOf cells).getD g false) ∧
    ed.isBndEdge = isBndEdgeOf cells ∧
    ((edgeCts cells).all fun ct => ct < 3) = true := by
  rw [computeEdgeData] at h
  split at h
  · injection h with h
    subst h
    exact ⟨rfl, rfl, rfl, rfl, rfl, by assumption⟩
  · cases h

theorem gidAt_spec {cells : List Cell} {ed : EdgeData}
    (h : computeEdgeData cells = Except.ok ed) {p : ℕ × ℕ}
    (hp : p ∈ halfEdgePositions cells.length) :
    gidAt ed p = idxOf (uniqueRowTable (edgeRows cells)) (edgeRow cells p.1 p.2) := by
  obtain ⟨-, hce, -, -, -, -⟩ := computeEdgeData_ok_fields h
  obtain ⟨hk, hi⟩ := mem_halfEdgePositions.mp hp
  cases p with
  | mk k i =>
      simp only at hk hi
      simp only [gidAt, hce, cellsEdgesOf]
      rw [getD_map_range _ hi]
      interval_cases k <;> rfl

theorem edgeRow_mem_rows {cells : List Cell} {p : ℕ × ℕ}
    (hp : p ∈ halfEdgePositions cells.length) :
    edgeRow cells p.1 p.2 ∈ edgeRows cells := by
  rw [edgeRows_eq_map]
  exact List.mem_map.mpr ⟨p, hp, rfl⟩

theorem gidAt_lt {cells : List Cell} {ed : EdgeData}
    (h : computeEdgeData cells = Except.ok ed) {p : ℕ × ℕ}
    (hp : p ∈ halfEdgePositions cells.length) :
    gidAt ed p < ed.edgesNodes.length := by
  obtain ⟨hen, -, -, -, -, -⟩ := computeEdgeData_ok_fields h
  rw [gidAt_spec h hp, hen]
  exact idxOf_lt_length (mem_uniqueRowTable.mpr (edgeRow_mem_rows hp))

theorem incidences_length_eq_count {cells : List Cell} {ed : EdgeData}
    (h : computeEdgeData cells = Except.ok ed) {g : ℕ}
    (hg : g < (uniqueRowTable (edgeRows cells)).length) :
    (incidences cells.length ed g).length =
      (edgeRows cells).count ((uniqueRowTable (edgeRows cells)).get ⟨g, hg⟩) := by
  have hnod := uniqueRowTable_nodup (edgeRows cells)
  rw [incidences, ← List.countP_eq_length_filter]
  have hcong : (halfEdgePositions cells.length).countP (fun p => gidAt ed p == g) =
      (halfEdgePositions cells.length).countP
        (fun p => edgeRow cells p.1 p.2 == (uniqueRowTable (edgeRows cells)).get ⟨g, hg⟩) := by
    apply List.countP_congr
    intro p hp
    rw [beq_iff_eq, beq_iff_eq, gidAt_spec h hp,
      idxOf_eq_iff_get hnod hg (mem_uniqueRowTable.mpr (edgeRow_mem_rows hp)), eq_comm]
  have hmap : ((halfEdgePositions cells.length).map fun p => edgeRow cells p.1 p.2).countP
      (fun r => r == (uniqueRowTable (edgeRows cells)).get ⟨g, hg⟩) =
      (halfEdgePositions cells.length).countP
        (fun p => edgeRow cells p.1 p.2 == (uniqueRowTable (edgeRows cells)).get ⟨g, hg⟩) :=
    countP_comp_map _ _ _
  rw [hcong, ← hmap, ← edgeRows_eq_map]
  rfl

theorem bndInd_getD_eq {cells : List Cell} {ed : EdgeData}
    (h : computeEdgeData cells = Except.ok ed) {g : ℕ}
    (hg : g < (uniqueRowTable (edgeRows cells)).length) :
    ed.bndInd.getD g false =
      ((edgeRows cells).count ((uniqueRowTable (edgeRows cells)).get ⟨g, hg⟩) == 1) := by
  obtain ⟨-, -, hbnd, -, -, -⟩ := computeEdgeData_ok_fields h
  rw [hbnd, bndIndOf, edgeCts, List.map_map]
  exact getD_map_get _ _ hg false

theorem intGids_mem_facts {cells : List Cell} {ed : EdgeData}
    (h : computeEdgeData cells = Except.ok ed) {g : ℕ} (hmem : g ∈ ed.intGids) :
    g < (uniqueRowTable (edgeRows cells)).length ∧ ed.bndInd.getD g false = false := by
  obtain ⟨-, -, hbnd, hint, -, -⟩ := computeEdgeData_ok_fields h
  rw [hint] at hmem
  have hf := List.mem_filter.mp hmem
  refine ⟨List.mem_range.mp hf.1, ?_⟩
  rw [hbnd]
  simpa using hf.2

theorem interior_two_incidences {cells : List Cell} {ed : EdgeData}
    (h : computeEdgeData cells = Except.ok ed) {g : ℕ} (hmem : g ∈ ed.intGids) :
    ∃ p q, incidences cells.length ed g = [p, q] := by
  obtain ⟨hg, hb⟩ := intGids_mem_facts h hmem
  obtain ⟨-, -, -, -, -, hall⟩ := computeEdgeData_ok_fields h
  have hne1 : (edgeRows cells).count ((uniqueRowTable (edgeRows cells)).get ⟨g, hg⟩) ≠ 1 := by
    have hbe := bndInd_getD_eq h hg
    rw [hb] at hbe
    exact beq_eq_false_iff_ne.mp hbe.symm
  have hlt3 : (edgeRows cells).count ((uniqueRowTable (edgeRows cells)).get ⟨g, hg⟩) < 3 := by
    have hmemc : (edgeRows cells).count ((uniqueRowTable (edgeRows cells)).get ⟨g, hg⟩) ∈
        edgeCts cells :=
      List.mem_map.mpr ⟨(uniqueRowTable (edgeRows cells)).get ⟨g, hg⟩,
        List.get_mem _ g hg, rfl⟩
    exact of_decide_eq_true (List.all_eq_true.mp hall _ hmemc)
  have hpos : 0 < (edgeRows cells).count ((uniqueRowTable (edgeRows cells)).get ⟨g, hg⟩) :=
    List.count_pos_iff_mem.mpr (mem_uniqueRowTable.mp (List.get_mem _ g hg))
  have htwo : (incidences cells.length ed g).length = 2 := by
    rw [incidences_length_eq_count h hg]
    omega
  exact List.length_eq_two.mp htwo

theorem ceFullValue_getD_eq_agg {cells : List Cell} {ce : List (Tri3 ℚ)} {ed : EdgeData}
    (h : computeEdgeData cells = Except.ok ed) (g : ℕ) :
    (ceFullValue cells ce ed).getD g 0 = aggCeRatio cells ce ed g := by
  rw [ceFullValue, scatterAdd_getD]
  · rw [getD_replicate_zero, zero_add, aggCeRatio, incidences, scatterPairs,
      List.filter_map, List.map_map]
    rfl
  · intro q hq
    rw [List.length_replicate]
    obtain ⟨p, hp, hpq⟩ := List.mem_map.mp hq
    rw [← hpq]
    exact gidAt_lt h hp

theorem interiorCeValue_eq_map_agg {cells : List Cell} {ce : List (Tri3 ℚ)} {ed : EdgeData}
    (h : computeEdgeData cells = Except.ok ed) :
    interiorCeValue cells ce ed = ed.intGids.map fun g => aggCeRatio cells ce ed g := by
  obtain ⟨hen, -, hbnd, hint, -, -⟩ := computeEdgeData_ok_fields h
  have : interiorCeValue cells ce ed =
      ed.intGids.map fun g => (ceFullValue cells ce ed).getD g 0 := by
    rw [interiorCeValue, hint, hen, hbnd]
  rw [this]
  exact List.map_congr_left fun g _ => ceFullValue_getD_eq_agg h g

theorem exceptBindOk {α β : Type} {e : Except Err α} {f : α → Except Err β} {b : β}
    (h : e >>= f = Except.ok b) : ∃ a, e = Except.ok a ∧ f a = Except.ok b := by
  cases e with
  | ok a => exact ⟨a, rfl, h⟩
  | error err => simp [Bind.bind, Except.bind] at h

theorem ensureEdges_cache_cases {m : Mesh} {ed : EdgeData}
    (hed : computeEdgeData m.cellsNodes = Except.ok ed)
    (hca : m.edgeData = none ∨ m.edgeData = some ed) :
    ∃ m1, ensureEdges m = Except.ok (ed, m1) ∧
      m1.cellsNodes = m.cellsNodes ∧ m1.ceRatios = m.ceRatios ∧
      m1.interiorCe = m.interiorCe ∧ m1.fccType = m.fccType ∧
      m1.nodeCoords = m.nodeCoords ∧ m1.edgeData = some ed ∧
      m1.isBoundaryNode = m.isBoundaryNode ∧ m1.isBoundaryFace = m.isBoundaryFace ∧
      m1.ceFull = m.ceFull ∧ m1.cellVolumes = m.cellVolumes ∧
      m1.fcc = m.fcc ∧ m1.regularCells = m.regularCells ∧ m1.fccType = m.fccType := by
  rcases hca with hca | hca
  · refine ⟨{ m with edgeData := some ed, adjData := none }, ?_, by simp_all⟩
    unfold ensureEdges
    rw [hca, hed]
    rfl
  · refine ⟨m, ?_, by simp_all⟩
    unfold ensureEdges
    rw [hca]

theorem getInteriorCe_cache_some {m : Mesh} {v : List ℚ} (h : m.interiorCe = some v) :
    getInteriorCe m = Except.ok (v, m) := by
  unfold getInteriorCe
  rw [h]

theorem getInteriorCe_of_none {m m1 : Mesh} {ed : EdgeData} (hic : m.interiorCe = none)
    (hee : ensureEdges m = Except.ok (ed, m1)) :
    getInteriorCe m =
      Except.ok (interiorCeValue m1.cellsNodes m1.ceRatios ed, withInteriorCache m1 ed) := by
  unfold getInteriorCe
  rw [hic, hee]
  rfl

/-- C4: `num_delaunay_violations()` equals the number of interior edges whose
aggregated covolume-edge ratio is negative, where an edge is interior exactly
when it has two adjacent half-edge incidences and its aggregated ratio is the
sum of their two ratios, in either order. -/
theorem c4NumDelaunayViolationsSpec (m : Mesh) (ed : EdgeData)
    (hed : computeEdgeData m.cellsNodes = Except.ok ed)
    (hca : m.edgeData = none ∨ m.edgeData = some ed)
    (hic : m.interiorCe = none) :
    (∃ m1, numDelaunayViolations m = Except.ok
      ((ed.intGids.countP fun g =>
        decide (aggCeRatio m.cellsNodes m.ceRatios ed g < 0)), m1)) ∧
    ∀ g ∈ ed.intGids, ∃ p q, incidences m.cellsNodes.length ed g = [p, q] ∧
      aggCeRatio m.cellsNodes m.ceRatios ed g =
        ratioAt m.ceRatios p + ratioAt m.ceRatios q ∧
      aggCeRatio m.cellsNodes m.ceRatios ed g =
        ratioAt m.ceRatios q + ratioAt m.ceRatios p := by
  constructor
  · obtain ⟨m1, hee, hcn, hcr, hi1, -⟩ := ensureEdges_cache_cases hed hca
    refine ⟨withInteriorCache m1 ed, ?_⟩
    unfold numDelaunayViolations
    rw [getInteriorCe_of_none hic hee]
    have hicr : interiorCeValue m1.cellsNodes m1.ceRatios ed =
        ed.intGids.map fun g => aggCeRatio m.cellsNodes m.ceRatios ed g := by
      rw [hcn, hcr]
      exact interiorCeValue_eq_map_agg hed
    have hcount : ((interiorCeValue m1.cellsNodes m1.ceRatios ed).countP
        fun x => decide (x < 0)) =
        ed.intGids.countP fun g =>
          decide (aggCeRatio m.cellsNodes m.ceRatios ed g < 0) := by
      rw [hicr]
      exact countP_comp_map _ _ _
    show Except.ok ((interiorCeValue m1.cellsNodes m1.ceRatios ed).countP
      (fun x => decide (x < 0)), withInteriorCache m1 ed) = _
    rw [hcount]
  · intro g hg
    obtain ⟨p, q, hpq⟩ := interior_two_incidences hed hg
    refine ⟨p, q, hpq, ?_, ?_⟩
    · rw [aggCeRatio, hpq]
      simp
    · rw [aggCeRatio, hpq]
      simp
      ring

set_option maxRecDepth 8000 in
/-- Witness for C4: the violation count and the two-incidence decomposition of
each interior edge's aggregated ratio, instantiated on the two-cell mesh
`zcvMesh`. -/
theorem c4Witness :
    (∃ m1, numDelaunayViolations zcvMesh = Except.ok
      ((zcvEdgeData.intGids.countP fun g =>
        decide (aggCeRatio zcvMesh.cellsNodes zcvMesh.ceRatios zcvEdgeData g < 0)), m1)) ∧
    ∀ g ∈ zcvEdgeData.intGids, ∃ p q,
      incidences zcvMesh.cellsNodes.length zcvEdgeData g = [p, q] ∧
      aggCeRatio zcvMesh.cellsNodes zcvMesh.ceRatios zcvEdgeData g =
        ratioAt zcvMesh.ceRatios p + ratioAt zcvMesh.ceRatios q ∧
      aggCeRatio zcvMesh.cellsNodes zcvMesh.ceRatios zcvEdgeData g =
        ratioAt zcvMesh.ceRatios q + ratioAt zcvMesh.ceRatios p :=
  c4NumDelaunayViolationsSpec zcvMesh zcvEdgeData (by decide) (Or.inl (by decide))
    (by decide)

/-- C2 (amended): `get_control_volume_centroids` divides by the control volume
unconditionally; a node whose accumulated control volume is zero receives the
undefined entry (`none`), and no error is raised or surfaced. -/
theorem c2ZeroControlVolumeYieldsUndefinedCentroid (m : Mesh) (nid : ℕ)
    (hn : nid < m.nodeCoords.length)
    (hz : (controlVolumes m).getD nid 0 = 0) :
    (cvCentroids m).getD nid (some []) = none := by
  simp only [cvCentroids]
  rw [getD_map_range _ hn]
  exact if_pos hz

set_option maxRecDepth 8000 in
/-- Witness for C2 (amended): node `0` of `zcvMesh` has zero control volume and
an undefined centroid entry. -/
theorem c2Witness :
    0 < zcvMesh.nodeCoords.length ∧
    (controlVolumes zcvMesh).getD 0 0 = 0 ∧
    (cvCentroids zcvMesh).getD 0 (some []) = none :=
  ⟨by decide, by decide,
    c2ZeroControlVolumeYieldsUndefinedCentroid zcvMesh 0 (by decide) (by decide)⟩

/-- C6: each entry of `get_cell_partitions` equals one quarter times the
squared length of the half-edge opposite local node `k` times that half-edge's
stored covolume-edge ratio. -/
theorem c6CellPartitionsQuarterRule (m : Mesh) (i k : ℕ)
    (hi : i < m.cellsNodes.length) (hk : k < 3) :
    ((cellPartitions m).getD i ⟨0, 0, 0⟩).get k =
      1 / 4 *
        dotV (halfEdge m.nodeCoords (m.cellsNodes.getD i ⟨0, 0, 0⟩) k)
          (halfEdge m.nodeCoords (m.cellsNodes.getD i ⟨0, 0, 0⟩) k) *
        (m.ceRatios.getD i ⟨0, 0, 0⟩).get k := by
  simp only [cellPartitions]
  rw [getD_map_range _ hi]
  interval_cases k <;> rfl

set_option maxRecDepth 8000 in
/-- Witness for C6: the quarter rule evaluated at cell `0`, local edge `1` of
`zcvMesh`. -/
theorem c6Witness :
    0 < zcvMesh.cellsNodes.length ∧ 1 < 3 ∧
    ((cellPartitions zcvMesh).getD 0 ⟨0, 0, 0⟩).get 1 =
      1 / 4 *
        dotV (halfEdge zcvMesh.nodeCoords (zcvMesh.cellsNodes.getD 0 ⟨0, 0, 0⟩) 1)
          (halfEdge zcvMesh.nodeCoords (zcvMesh.cellsNodes.getD 0 ⟨0, 0, 0⟩) 1) *
        (zcvMesh.ceRatios.getD 0 ⟨0, 0, 0⟩).get 1 :=
  ⟨by decide, by decide,
    c6CellPartitionsQuarterRule zcvMesh 0 1 (by decide) (by decide)⟩

/-- C7: with in-bounds cells, an orphan node (one appearing in no cell) makes
construction fail fatally with `unusedNode` for every flat-cell-correction
mode; if every node appears in at least one cell the orphan check passes and
construction (without flat-cell correction) succeeds. -/
theorem c7OrphanNodesFatal (nodes : List Vec) (cells : List Cell)
    (hb : cells.all (cellInBounds nodes.length) = true) :
    ((∃ nid, nid < nodes.length ∧ ∀ c ∈ cells, cellHasNode c nid = false) →
      ∀ fccType, meshInit nodes cells fccType = Except.error Err.unusedNode) ∧
    ((∀ nid, nid < nodes.length → ∃ c ∈ cells, cellHasNode c nid = true) →
      ∃ msh, meshInit nodes cells none = Except.ok msh) := by
  constructor
  · rintro ⟨nid, hnid, hnone⟩ fccType
    have horph : (List.range nodes.length).all
        (fun nid => cells.any (cellHasNode · nid)) = false := by
      cases hcase : (List.range nodes.length).all
          (fun nid => cells.any (cellHasNode · nid)) with
      | false => rfl
      | true =>
        exfalso
        have hy := List.all_eq_true.mp hcase nid (List.mem_range.mpr hnid)
        obtain ⟨c, hc, hcn⟩ := List.any_eq_true.mp hy
        rw [hnone c hc] at hcn
        exact Bool.false_ne_true hcn
    simp [meshInit, hb, horph]
  · intro hall
    have horph : (List.range nodes.length).all
        (fun nid => cells.any (cellHasNode · nid)) = true := by
      apply List.all_eq_true.mpr
      intro nid hmem
      obtain ⟨c, hc, hcn⟩ := hall nid (List.mem_range.mp hmem)
      exact List.any_eq_true.mpr ⟨c, hc, hcn⟩
    exact ⟨_, by unfold meshInit; rw [hb, horph]; rfl⟩

/-- Witness for C7: a four-node table whose node `3` lies in no cell is
rejected with `unusedNode`, and the fully-used `zcvNodes`/`zcvCells` input is
accepted. -/
theorem c7Witness :
    meshInit [[0, 0], [1, 0], [0, 1], [5, 5]] [⟨0, 1, 2⟩] none =
      Except.error Err.unusedNode ∧
    ∃ msh, meshInit zcvNodes zcvCells none = Except.ok msh :=
  ⟨(c7OrphanNodesFatal [[0, 0], [1, 0], [0, 1], [5, 5]] [⟨0, 1, 2⟩]
      (by decide)).1 ⟨3, by decide, by decide⟩ none,
   (c7OrphanNodesFatal zcvNodes zcvCells (by decide)).2 (by decide)⟩

theorem exceptBindErrCases {α β : Type} {e : Except Err α} {f : α → Except Err β}
    {err : Err} (h : (e >>= f) = Except.error err) :
    e = Except.error err ∨ ∃ a, e = Except.ok a ∧ f a = Except.error err := by
  cases e with
  | ok a => exact Or.inr ⟨a, rfl, h⟩
  | error e0 =>
      have h2 : (Except.error e0 : Except Err β) = Except.error err := h
      injection h2 with h3
      exact Or.inl (by rw [h3])

theorem mapME_error {α β : Type} {f : α → Except Err β} {xs : List α} {err : Err}
    (h : mapME f xs = Except.error err) : ∃ x ∈ xs, f x = Except.error err := by
  induction xs with
  | nil => exact absurd h (by simp [mapME])
  | cons x xs ih =>
      simp only [mapME] at h
      rcases exceptBindErrCases h with h1 | ⟨y, hy, h2⟩
      · exact ⟨x, List.mem_cons_self x xs, h1⟩
      · rcases exceptBindErrCases h2 with h3 | ⟨ys, hys, h4⟩
        · obtain ⟨z, hz, hf⟩ := ih h3
          exact ⟨z, List.mem_cons_of_mem _ hz, hf⟩
        · exact absurd h4 (by simp)

theorem foldME_error {σ α : Type} {f : σ → α → Except Err σ} {s : σ} {xs : List α}
    {err : Err} (h : foldME f s xs = Except.error err) :
    ∃ s1 x, x ∈ xs ∧ f s1 x = Except.error err := by
  induction xs generalizing s with
  | nil => exact absurd h (by simp [foldME])
  | cons x xs ih =>
      simp only [foldME] at h
      rcases exceptBindErrCases h with h1 | ⟨s1, hs1, h2⟩
      · exact ⟨s, x, List.mem_cons_self x xs, h1⟩
      · obtain ⟨s2, z, hz, hf⟩ := ih h2
        exact ⟨s2, z, List.mem_cons_of_mem _ hz, hf⟩

theorem uniqueMatchK_error {t : Tri3 ℕ} {g : ℕ} {e err : Err}
    (h : uniqueMatchK t g e = Except.error err) : err = e := by
  unfold uniqueMatchK at h
  rcases hm : (List.range 3).filter (fun k => t.get k == g) with - | ⟨k, - | ⟨k2, r⟩⟩ <;>
    rw [hm] at h <;> simp_all

theorem adjRewrite_error {ad : AdjData} {p : ℕ × ℕ × ℕ} {err : Err}
    (h : adjRewrite ad p = Except.error err) :
    err = Err.boundaryAdjMismatch ∨ err = Err.adjXor := by
  obtain ⟨eg, cc, dc⟩ := p
  simp only [adjRewrite] at h
  split at h
  · split at h
    · exact absurd h (by simp)
    · injection h with h2
      exact Or.inl h2.symm
  · split at h
    · split at h
      · exact absurd h (by simp)
      · injection h with h2
        exact Or.inr h2.symm
    · injection h with h2
      exact Or.inr h2.symm

theorem patchInteriorCe_error {m : Mesh} {ids : List ℕ} {err : Err}
    (h : patchInteriorCe m ids = Except.error err) :
    err = Err.missingEdges ∨ err = Err.patchMatchNotOne := by
  unfold patchInteriorCe at h
  split at h
  · exact absurd h (by simp)
  · split at h
    · rcases exceptBindErrCases h with h1 | ⟨icr1, hicr1, h2⟩
      · obtain ⟨t, eid, hmem, hstep⟩ := foldME_error h1
        rcases exceptBindErrCases hstep with h3 | ⟨k0, hk0, h4⟩
        · exact Or.inr (uniqueMatchK_error h3)
        · rcases exceptBindErrCases h4 with h5 | ⟨k1, hk1, h6⟩
          · exact Or.inr (uniqueMatchK_error h5)
          · exact absurd h6 (by simp)
      · exact absurd h2 (by simp)
    · injection h with h2
      exact Or.inl h2.symm

theorem flipEdgesCore_error {m : Mesh} {ed : EdgeData} {ad : AdjData}
    {mask : List Bool} {err : Err}
    (h : flipEdgesCore m ed ad mask = Except.error err) :
    err ≠ Err.atMostOneEdgePerCell := by
  simp only [flipEdgesCore] at h
  rcases exceptBindErrCases h with h1 | ⟨recs, hrecs, h2⟩
  · obtain ⟨j, hj, hmk⟩ := mapME_error h1
    simp only [mkFlipRec] at hmk
    rcases exceptBindErrCases hmk with h3 | ⟨lidA, hlidA, h4⟩
    · rw [uniqueMatchK_error h3]
      decide
    · rcases exceptBindErrCases h4 with h5 | ⟨lidB, hlidB, h6⟩
      · rw [uniqueMatchK_error h5]
        decide
      · exact absurd h6 (by simp)
  · split at h2
    · rcases exceptBindErrCases h2 with h3 | ⟨ad1, had1, h4⟩
      · obtain ⟨acc, pr, hmem, hrw⟩ := foldME_error h3
        rcases adjRewrite_error hrw with he | he <;> rw [he] <;> decide
      · rcases exceptBindErrCases h4 with h5 | ⟨ad2, had2, h6⟩
        · obtain ⟨acc, pr, hmem, hrw⟩ := foldME_error h5
          rcases adjRewrite_error hrw with he | he <;> rw [he] <;> decide
        · unfold updateCellValues at h6
          rcases patchInteriorCe_error h6 with he | he <;> rw [he] <;> decide
    · injection h2 with h3
      rw [← h3]
      decide

/-- C8: a flip batch in which some cell is adjacent to more than one selected
interior edge makes `_flip_edges` fail with the batch assertion
(`atMostOneEdgePerCell`) before any mutation; a batch in which every cell is
adjacent to at most one selected edge passes the precondition, and no later
step of `_flip_edges` can raise that assertion. -/
theorem c8FlipBatchPrecondition (m : Mesh) (mask : List Bool) (ed : EdgeData)
    (ad : AdjData) (hfcc : m.fccType ≠ some FccMode.full)
    (hed : m.edgeData = some ed) (had : m.adjData = some ad) :
    ((∃ c, 2 ≤ (selectedCellList ad mask).count c) →
      flipEdgesM m mask = Except.error Err.atMostOneEdgePerCell) ∧
    ((∀ c ∈ selectedCellList ad mask, (selectedCellList ad mask).count c < 2) →
      flipPrecondition ad mask = true ∧
      flipEdgesM m mask ≠ Except.error Err.atMostOneEdgePerCell) := by
  have hensure : ensureAdj m = Except.ok (ed, ad, m) := by
    unfold ensureAdj
    rw [hed, had]
  constructor
  · rintro ⟨c, hc⟩
    have hpre : flipPrecondition ad mask = false := by
      cases hcase : flipPrecondition ad mask with
      | false => rfl
      | true =>
        exfalso
        have hmem : c ∈ selectedCellList ad mask :=
          List.count_pos_iff_mem.mp (by omega)
        have h5 := of_decide_eq_true (List.all_eq_true.mp hcase c hmem)
        omega
    unfold flipEdgesM
    rw [if_neg hfcc, hensure]
    show (if flipPrecondition ad mask = true then flipEdgesCore m ed ad mask
      else Except.error Err.atMostOneEdgePerCell) = _
    rw [hpre]
    rfl
  · intro hlt
    have hpre : flipPrecondition ad mask = true :=
      List.all_eq_true.mpr fun c hc => decide_eq_true (hlt c hc)
    have heq : flipEdgesM m mask = flipEdgesCore m ed ad mask := by
      unfold flipEdgesM
      rw [if_neg hfcc, hensure]
      show (if flipPrecondition ad mask = true then flipEdgesCore m ed ad mask
        else Except.error Err.atMostOneEdgePerCell) = _
      rw [hpre]
      rfl
    refine ⟨hpre, fun hcontra => ?_⟩
    rw [heq] at hcontra
    exact flipEdgesCore_error hcontra rfl

set_option maxRecDepth 8000 in
/-- Witness for C8 on the three-cell fan mesh: selecting both interior edges
makes cell `0` adjacent to two selected edges and the batch assertion fires;
selecting only the first interior edge passes the precondition and the
assertion cannot fire. -/
theorem c8Witness :
    flipEdgesM fanMesh [true, true] = Except.error Err.atMostOneEdgePerCell ∧
    flipPrecondition fanAdjData [true, false] = true ∧
    flipEdgesM fanMesh [true, false] ≠ Except.error Err.atMostOneEdgePerCell :=
  ⟨(c8FlipBatchPrecondition fanMesh [true, true] fanEdgeData fanAdjData
      (by decide) (by decide) (by decide)).1 ⟨0, by decide⟩,
   ((c8FlipBatchPrecondition fanMesh [true, false] fanEdgeData fanAdjData
      (by decide) (by decide) (by decide)).2 (by decide)).1,
   ((c8FlipBatchPrecondition fanMesh [true, false] fanEdgeData fanAdjData
      (by decide) (by decide) (by decide)).2 (by decide)).2⟩

/-- C9: `FlatCellCorrector` construction asserts that for every isosceles
sub-triangle the two covolume-edge ratios sharing the mirrored base edge agree
within the relative tolerance `1e-10`: successful construction implies every
sub-triangle satisfies the tolerance, and any violating sub-triangle makes
construction fail with a hard error rather than silently recovering. -/
theorem c9IsoscelesToleranceAssert (cells : List Cell) (flatLocal : List ℕ)
    (N : List Vec) :
    (∀ d, fccConstruct cells flatLocal N = Except.ok d →
      ∀ t ∈ fccIsoTriples cells flatLocal N,
        |(isoCeOf t).snd3 - (isoCeOf t).trd3| < tol10 * (isoCeOf t).snd3) ∧
    ((∃ t ∈ fccIsoTriples cells flatLocal N, isoWithinTol t = false) →
      ∃ e, fccConstruct cells flatLocal N = Except.error e) := by
  constructor
  · intro d h t ht
    simp only [fccConstruct] at h
    obtain ⟨rows, hrows, -⟩ := exceptBindOk h
    unfold isoCeRatios at hrows
    split at hrows
    · split at hrows
      case isTrue htol =>
        exact of_decide_eq_true (List.all_eq_true.mp htol t ht)
      case isFalse htol => exact absurd hrows (by simp)
    · exact absurd hrows (by simp)
  · rintro ⟨t, ht, hbad⟩
    by_cases hp : (fccIsoTriples cells flatLocal N).all isoPremise = true
    · have hw : ¬ (fccIsoTriples cells flatLocal N).all isoWithinTol = true := by
        intro hcase
        have hy := List.all_eq_true.mp hcase t ht
        rw [hbad] at hy
        exact Bool.false_ne_true hy
      refine ⟨Err.asymmetricCeRatios, ?_⟩
      have hiso : isoCeRatios (fccIsoTriples cells flatLocal N) =
          Except.error Err.asymmetricCeRatios := by
        unfold isoCeRatios
        rw [if_pos hp, if_neg hw]
      simp only [fccConstruct]
      rw [hiso]
      rfl
    · refine ⟨Err.isoscelesPremise, ?_⟩
      have hiso : isoCeRatios (fccIsoTriples cells flatLocal N) =
          Except.error Err.isoscelesPremise := by
        unfold isoCeRatios
        rw [if_neg hp]
      simp only [fccConstruct]
      rw [hiso]
      rfl

set_option maxRecDepth 8000 in
/-- Witness for C9: the flat-corrected single-cell mesh's sub-triangles all
pass the tolerance (its construction succeeds), while a degenerate collinear
cell produces a sub-triangle violating it and construction fails. -/
theorem c9Witness :
    (∀ t ∈ fccIsoTriples flatCells [0] flatNodes,
      |(isoCeOf t).snd3 - (isoCeOf t).trd3| < tol10 * (isoCeOf t).snd3) ∧
    ∃ e, fccConstruct [⟨0, 1, 2⟩] [0] [[0, 0], [1, 0], [2, 0]] = Except.error e :=
  ⟨(c9IsoscelesToleranceAssert flatCells [0] flatNodes).1
      ((fccConstruct flatCells [0] flatNodes).toOption.getD default) (by decide),
   (c9IsoscelesToleranceAssert [⟨0, 1, 2⟩] [0] [[0, 0], [1, 0], [2, 0]]).2
      ⟨([1, 0], [0, 0], [0, 0]), by decide, by decide⟩⟩

theorem ensureEdges_of_some {m : Mesh} {ed : EdgeData} (h : m.edgeData = some ed) :
    ensureEdges m = Except.ok (ed, m) := by
  unfold ensureEdges
  rw [h]

theorem markBoundaryM_of_ensure {m m1 : Mesh} {ed : EdgeData}
    (hee : ensureEdges m = Except.ok (ed, m1)) :
    markBoundaryM m = Except.ok (ed, withBoundaryMarks m1 ed) := by
  unfold markBoundaryM withBoundaryMarks
  rw [hee]
  rfl

theorem flipLoopGo_no_needs {fuel : ℕ} {m : Mesh} {needs : List Bool} {steps : ℕ}
    (h : needs.any id = false) :
    flipLoopGo fuel m needs steps = Except.ok (steps, m) := by
  cases fuel with
  | zero =>
      unfold flipLoopGo
      rw [h]
      rfl
  | succ n =>
      unfold flipLoopGo
      rw [h]
      rfl

/-- C10 (amended): on a mesh not in full flat-cell-correction mode in which
every interior edge's aggregated covolume-edge ratio is positive — including
meshes whose boundary half-edges carry negative ratios — `flip_until_delaunay`
performs zero flip steps and returns `False`, leaving the node coordinates, the
cell→node table, the per-half-edge ratios and the edge table unchanged (only
lazy edge/boundary structures may be built); on any full-mode mesh the entry
assertion `self.fcc_type != "full"` fails instead. -/
theorem c10NoFlipWhenInteriorPositive (m : Mesh) (ed : EdgeData) (fuel : ℕ)
    (hfcc : m.fccType ≠ some FccMode.full)
    (hed : computeEdgeData m.cellsNodes = Except.ok ed)
    (hca : m.edgeData = none ∨ m.edgeData = some ed)
    (hic : m.interiorCe = none ∨
      m.interiorCe = some (interiorCeValue m.cellsNodes m.ceRatios ed))
    (hpos : ∀ g ∈ ed.intGids, 0 < aggCeRatio m.cellsNodes m.ceRatios ed g) :
    (∃ m1, flipUntilDelaunayAux fuel m = Except.ok (0, m1) ∧
      flipUntilDelaunay fuel m = Except.ok (false, m1) ∧
      m1.nodeCoords = m.nodeCoords ∧ m1.cellsNodes = m.cellsNodes ∧
      m1.ceRatios = m.ceRatios ∧
      (m1.edgeData = none ∨ m1.edgeData = some ed)) ∧
    ∀ mF : Mesh, mF.fccType = some FccMode.full →
      flipUntilDelaunay fuel mF = Except.error Err.flipFullFcc := by
  constructor
  · by_cases hA : allCePos m.ceRatios = true
    · have hAux : flipUntilDelaunayAux fuel m = Except.ok (0, m) := by
        unfold flipUntilDelaunayAux
        rw [if_neg hfcc, if_pos hA]
      refine ⟨m, hAux, ?_, rfl, rfl, rfl, hca⟩
      unfold flipUntilDelaunay
      rw [hAux]
      rfl
    · obtain ⟨m1, hee, hcn, hcr, hi1, hft, hnc, hedp, -⟩ :=
        ensureEdges_cache_cases hed hca
      have hmb := markBoundaryM_of_ensure hee
      have hBcn : (withBoundaryMarks m1 ed).cellsNodes = m.cellsNodes := hcn
      have hBcr : (withBoundaryMarks m1 ed).ceRatios = m.ceRatios := hcr
      have hBnc : (withBoundaryMarks m1 ed).nodeCoords = m.nodeCoords := hnc
      have hBed : (withBoundaryMarks m1 ed).edgeData = some ed := hedp
      have hBic : (withBoundaryMarks m1 ed).interiorCe = m.interiorCe := hi1
      by_cases hB : interiorMaskAllPos (withBoundaryMarks m1 ed).cellsNodes
          (withBoundaryMarks m1 ed).ceRatios ed = true
      · have hAux : flipUntilDelaunayAux fuel m =
            Except.ok (0, withBoundaryMarks m1 ed) := by
          unfold flipUntilDelaunayAux
          rw [if_neg hfcc, if_neg hA, hmb]
          dsimp only [Bind.bind, Except.bind]
          rw [if_pos hB]
        refine ⟨withBoundaryMarks m1 ed, hAux, ?_, hBnc, hBcn, hBcr, Or.inr hBed⟩
        unfold flipUntilDelaunay
        rw [hAux]
        rfl
      · have hneeds : ((interiorCeValue m.cellsNodes m.ceRatios ed).map
            (fun x => decide (x < 0))).any id = false := by
          cases hcase : ((interiorCeValue m.cellsNodes m.ceRatios ed).map
              (fun x => decide (x < 0))).any id with
          | false => rfl
          | true =>
              exfalso
              obtain ⟨b, hb, hbid⟩ := List.any_eq_true.mp hcase
              obtain ⟨x, hx, rfl⟩ := List.mem_map.mp hb
              rw [interiorCeValue_eq_map_agg hed] at hx
              obtain ⟨g, hg, rfl⟩ := List.mem_map.mp hx
              have hlt := of_decide_eq_true hbid
              exact absurd hlt (not_lt.mpr (le_of_lt (hpos g hg)))
        have hicv : interiorCeValue (withBoundaryMarks m1 ed).cellsNodes
            (withBoundaryMarks m1 ed).ceRatios ed =
            interiorCeValue m.cellsNodes m.ceRatios ed := by
          rw [hBcn, hBcr]
        rcases hic with hic0 | hic0
        · have hBic0 : (withBoundaryMarks m1 ed).interiorCe = none := by
            rw [hBic, hic0]
          have hgic := getInteriorCe_of_none hBic0 (ensureEdges_of_some hBed)
          have hAux : flipUntilDelaunayAux fuel m =
              Except.ok (0, withInteriorCache (withBoundaryMarks m1 ed) ed) := by
            unfold flipUntilDelaunayAux
            rw [if_neg hfcc, if_neg hA, hmb]
            dsimp only [Bind.bind, Except.bind]
            rw [if_neg hB, hgic]
            dsimp only [Bind.bind, Except.bind]
            rw [hicv]
            exact flipLoopGo_no_needs hneeds
          refine ⟨withInteriorCache (withBoundaryMarks m1 ed) ed, hAux, ?_,
            hBnc, hBcn, hBcr, Or.inr hBed⟩
          unfold flipUntilDelaunay
          rw [hAux]
          rfl
        · have hBic0 : (withBoundaryMarks m1 ed).interiorCe =
              some (interiorCeValue m.cellsNodes m.ceRatios ed) := by
            rw [hBic, hic0]
          have hgic := getInteriorCe_cache_some hBic0
          have hAux : flipUntilDelaunayAux fuel m =
              Except.ok (0, withBoundaryMarks m1 ed) := by
            unfold flipUntilDelaunayAux
            rw [if_neg hfcc, if_neg hA, hmb]
            dsimp only [Bind.bind, Except.bind]
            rw [if_neg hB, hgic]
            dsimp only [Bind.bind, Except.bind]
            exact flipLoopGo_no_needs hneeds
          refine ⟨withBoundaryMarks m1 ed, hAux, ?_, hBnc, hBcn, hBcr, Or.inr hBed⟩
          unfold flipUntilDelaunay
          rw [hAux]
          rfl
  · intro mF hmF
    unfold flipUntilDelaunay flipUntilDelaunayAux
    rw [if_pos hmF]
    rfl

set_option maxRecDepth 8000 in
/-- Witness for C10: `zcvMesh` has a negative boundary half-edge ratio but a
positive aggregated interior ratio, so a five-fuel run flips nothing, and the
full-mode mesh `rightFullMesh` hits the entry assertion. -/
theorem c10Witness :
    (∃ m1, flipUntilDelaunayAux 5 zcvMesh = Except.ok (0, m1) ∧
      flipUntilDelaunay 5 zcvMesh = Except.ok (false, m1) ∧
      m1.nodeCoords = zcvMesh.nodeCoords ∧ m1.cellsNodes = zcvMesh.cellsNodes ∧
      m1.ceRatios = zcvMesh.ceRatios ∧
      (m1.edgeData = none ∨ m1.edgeData = some zcvEdgeData)) ∧
    flipUntilDelaunay 5 rightFullMesh = Except.error Err.flipFullFcc :=
  ⟨(c10NoFlipWhenInteriorPositive zcvMesh zcvEdgeData 5 (by decide) (by decide)
      (Or.inl (by decide)) (Or.inl (by decide)) (by decide)).1,
   (c10NoFlipWhenInteriorPositive zcvMesh zcvEdgeData 5 (by decide) (by decide)
      (Or.inl (by decide)) (Or.inl (by decide)) (by decide)).2
      rightFullMesh (by decide)⟩

theorem countP_eq_zero_of_map_any_false {f : ℚ → Bool} {l : List ℚ}
    (h : (l.map f).any id = false) : l.countP f = 0 := by
  apply List.countP_eq_zero.mpr
  intro a ha hfa
  have hmem : f a ∈ l.map f := List.mem_map_of_mem f ha
  have htrue : (l.map f).any id = true := List.any_eq_true.mpr ⟨f a, hmem, hfa⟩
  rw [h] at htrue
  exact Bool.false_ne_true htrue

theorem isBndEdge_at {cells : List Cell} {ed : EdgeData}
    (h : computeEdgeData cells = Except.ok ed) {p : ℕ × ℕ}
    (hp : p ∈ halfEdgePositions cells.length) :
    (ed.isBndEdge.getD p.2 ⟨false, false, false⟩).get p.1 =
      ed.bndInd.getD (gidAt ed p) false := by
  obtain ⟨-, hce, hbnd, -, hibe, -⟩ := computeEdgeData_ok_fields h
  obtain ⟨hk, hi⟩ := mem_halfEdgePositions.mp hp
  cases p with
  | mk k i =>
      simp only at hk hi
      simp only [gidAt, hibe, hce, hbnd, isBndEdgeOf, cellsEdgesOf, List.map_map]
      rw [getD_map_range _ hi, getD_map_range _ hi]
      interval_cases k <;> rfl

theorem interiorMask_agg_pos {cells : List Cell} {ce : List (Tri3 ℚ)} {ed : EdgeData}
    (h : computeEdgeData cells = Except.ok ed)
    (hmask : interiorMaskAllPos cells ce ed = true)
    {g : ℕ} (hg : g ∈ ed.intGids) : 0 < aggCeRatio cells ce ed g := by
  obtain ⟨p, q, hpq⟩ := interior_two_incidences h hg
  have hb : ed.bndInd.getD g false = false := (intGids_mem_facts h hg).2
  have hppos : ∀ r ∈ incidences cells.length ed g, 0 < ratioAt ce r := by
    intro r hr
    have hrf := List.mem_filter.mp hr
    have hrp : r ∈ halfEdgePositions cells.length := hrf.1
    have hrg : gidAt ed r = g := by simpa using hrf.2
    obtain ⟨hk, hi⟩ := mem_halfEdgePositions.mp hrp
    have hm := List.all_eq_true.mp hmask r.2 (List.mem_range.mpr hi)
    have hm2 := List.all_eq_true.mp hm r.1 (List.mem_range.mpr hk)
    rw [isBndEdge_at h hrp, hrg, hb] at hm2
    simpa [ratioAt] using hm2
  have hp1 := hppos p (by rw [hpq]; exact List.mem_cons_self p [q])
  have hq1 := hppos q (by rw [hpq]; exact List.mem_cons_of_mem p (List.mem_cons_self q []))
  rw [aggCeRatio, hpq]
  simp only [List.map_cons, List.map_nil, List.sum_cons, List.sum_nil, add_zero]
  exact add_pos hp1 hq1

theorem allCePos_ratio_pos {cells : List Cell} {ce : List (Tri3 ℚ)}
    (hlen : ce.length = cells.length) (hA : allCePos ce = true)
    {p : ℕ × ℕ} (hp : p ∈ halfEdgePositions cells.length) : 0 < ratioAt ce p := by
  obtain ⟨hk, hi⟩ := mem_halfEdgePositions.mp hp
  have hi2 : p.2 < ce.length := by omega
  have hgetd : ce.getD p.2 ⟨0, 0, 0⟩ = ce.get ⟨p.2, hi2⟩ := by
    simp [List.getD_eq_getElem?_getD, List.getElem?_eq_getElem hi2]
  have hmem : ce.getD p.2 ⟨0, 0, 0⟩ ∈ ce := by
    rw [hgetd]
    exact List.get_mem ce p.2 hi2
  have hall := List.all_eq_true.mp hA _ hmem
  simp only [Bool.and_eq_true, decide_eq_true_eq] at hall
  have hk3 : p.1 % 3 = 0 ∨ p.1 % 3 = 1 ∨ p.1 % 3 = 2 := by omega
  rw [ratioAt, Tri3.get]
  rcases hk3 with h3 | h3 | h3 <;> rw [h3]
  · exact hall.1.1
  · exact hall.1.2
  · exact hall.2

theorem ensureEdges_ok_post {m : Mesh} {ed : EdgeData} {m1 : Mesh}
    (h : ensureEdges m = Except.ok (ed, m1)) :
    m1.fccType = m.fccType ∧ m1.edgeData = some ed := by
  unfold ensureEdges at h
  split at h
  next ed0 hsome =>
    injection h with h2
    injection h2 with ha hb
    subst ha
    subst hb
    exact ⟨rfl, hsome⟩
  next hnone =>
    obtain ⟨ed1, -, hok⟩ := exceptBindOk h
    injection hok with h2
    injection h2 with ha hb
    subst ha
    subst hb
    exact ⟨rfl, rfl⟩

theorem getInteriorCe_ok_post {m m2 : Mesh} {icr : List ℚ}
    (h : getInteriorCe m = Except.ok (icr, m2)) :
    m2.interiorCe = some icr ∧ m2.fccType = m.fccType ∧
      (m.edgeData.isSome = true → m2.edgeData.isSome = true) := by
  unfold getInteriorCe at h
  split at h
  next v hv =>
    injection h with h2
    injection h2 with ha hb
    subst ha
    subst hb
    exact ⟨hv, rfl, id⟩
  next hv =>
    obtain ⟨⟨ed, m1⟩, hee, hok⟩ := exceptBindOk h
    obtain ⟨hf1, he1⟩ := ensureEdges_ok_post hee
    injection hok with h2
    injection h2 with ha hb
    subst ha
    subst hb
    refine ⟨rfl, hf1, fun _ => ?_⟩
    show m1.edgeData.isSome = true
    rw [he1]
    rfl

theorem patchInteriorCe_ok_post {m : Mesh} {ids : List ℕ} {m2 : Mesh}
    (h : patchInteriorCe m ids = Except.ok m2) :
    m2.fccType = m.fccType ∧ m2.edgeData = m.edgeData := by
  unfold patchInteriorCe at h
  split at h
  · injection h with h2
    subst h2
    exact ⟨rfl, rfl⟩
  · split at h
    · obtain ⟨icr1, -, hok⟩ := exceptBindOk h
      injection hok with h2
      subst h2
      exact ⟨rfl, rfl⟩
    · exact absurd h (by simp)

theorem ensureAdj_ok_post {m : Mesh} {ed : EdgeData} {ad : AdjData} {mA : Mesh}
    (h : ensureAdj m = Except.ok (ed, ad, mA)) :
    mA.fccType = m.fccType ∧ mA.edgeData = m.edgeData := by
  unfold ensureAdj at h
  split at h
  · exact absurd h (by simp)
  next ed0 hsome =>
    split at h
    · injection h with h2
      injection h2 with ha hb
      injection hb with hb1 hb2
      subst hb2
      exact ⟨rfl, rfl⟩
    · obtain ⟨ad1, -, hok⟩ := exceptBindOk h
      injection hok with h2
      injection h2 with ha hb
      injection hb with hb1 hb2
      subst hb2
      exact ⟨rfl, rfl⟩

theorem flipEdgesCore_ok_post {m : Mesh} {ed : EdgeData} {ad : AdjData}
    {mask : List Bool} {m2 : Mesh} (h : flipEdgesCore m ed ad mask = Except.ok m2) :
    m2.fccType = m.fccType ∧ m2.edgeData.isSome = true := by
  simp only [flipEdgesCore] at h
  obtain ⟨recs, -, h2⟩ := exceptBindOk h
  split at h2
  · obtain ⟨ad1, -, h3⟩ := exceptBindOk h2
    obtain ⟨ad2, -, h4⟩ := exceptBindOk h3
    unfold updateCellValues at h4
    obtain ⟨hf, he⟩ := patchInteriorCe_ok_post h4
    refine ⟨hf, ?_⟩
    rw [he]
    rfl
  · exact absurd h2 (by simp)

theorem flipEdgesM_ok_post {m : Mesh} {mask : List Bool} {m2 : Mesh}
    (h : flipEdgesM m mask = Except.ok m2) :
    m2.fccType = m.fccType ∧ m2.edgeData.isSome = true := by
  unfold flipEdgesM at h
  split at h
  · exact absurd h (by simp)
  · obtain ⟨⟨ed, ad, mA⟩, hea, h2⟩ := exceptBindOk h
    obtain ⟨hfA, -⟩ := ensureAdj_ok_post hea
    have h3 : (if flipPrecondition ad mask = true then flipEdgesCore mA ed ad mask
        else Except.error Err.atMostOneEdgePerCell) = Except.ok m2 := h2
    split at h3
    · obtain ⟨hf, he⟩ := flipEdgesCore_ok_post h3
      exact ⟨hf.trans hfA, he⟩
    · exact absurd h3 (by simp)

theorem flipLoopGo_ok_post {fuel : ℕ} {m : Mesh} {needs : List Bool} {steps s : ℕ}
    {mF : Mesh} (h : flipLoopGo fuel m needs steps = Except.ok (s, mF)) :
    (needs.any id = false ∧ mF = m) ∨
      ∃ icr, mF.interiorCe = some icr ∧
        (icr.map (fun x => decide (x < 0))).any id = false ∧
        mF.edgeData.isSome = true ∧ mF.fccType = m.fccType := by
  induction fuel generalizing m needs steps with
  | zero =>
      unfold flipLoopGo at h
      split at h
      next hcond => exact absurd h (by simp)
      next hcond =>
        injection h with h2
        injection h2 with ha hb
        exact Or.inl ⟨Bool.eq_false_iff.mpr hcond, hb.symm⟩
  | succ n ih =>
      unfold flipLoopGo at h
      split at h
      next hcond =>
        obtain ⟨m1, hm1, h2⟩ := exceptBindOk h
        obtain ⟨⟨icr, m2⟩, hgic, h3⟩ := exceptBindOk h2
        obtain ⟨hfm, hes⟩ := flipEdgesM_ok_post hm1
        obtain ⟨hi2, hf2, hes2⟩ := getInteriorCe_ok_post hgic
        rcases ih h3 with ⟨hany, hmf⟩ | ⟨icr2, hi3, hany3, hes3, hf3⟩
        · subst hmf
          exact Or.inr ⟨icr, hi2, hany, hes2 hes, hf2.trans hfm⟩
        · exact Or.inr ⟨icr2, hi3, hany3, hes3, hf3.trans (hf2.trans hfm)⟩
      next hcond =>
        injection h with h2
        injection h2 with ha hb
        exact Or.inl ⟨Bool.eq_false_iff.mpr hcond, hb.symm⟩

theorem numDelaunay_zero_of_agg_pos {m : Mesh} {ed : EdgeData}
    (hed : computeEdgeData m.cellsNodes = Except.ok ed)
    (hca : m.edgeData = none ∨ m.edgeData = some ed)
    (hic : m.interiorCe = none ∨
      m.interiorCe = some (interiorCeValue m.cellsNodes m.ceRatios ed))
    (hpos : ∀ g ∈ ed.intGids, 0 < aggCeRatio m.cellsNodes m.ceRatios ed g) :
    ∃ m3, numDelaunayViolations m = Except.ok (0, m3) := by
  have hcnt : (interiorCeValue m.cellsNodes m.ceRatios ed).countP
      (fun x => decide (x < 0)) = 0 := by
    rw [interiorCeValue_eq_map_agg hed]
    have hmap := countP_comp_map (fun g => aggCeRatio m.cellsNodes m.ceRatios ed g)
      (fun x => decide (x < 0)) ed.intGids
    rw [hmap]
    apply List.countP_eq_zero.mpr
    intro g hg hdec
    exact absurd (of_decide_eq_true hdec) (not_lt.mpr (le_of_lt (hpos g hg)))
  rcases hic with hic | hic
  · obtain ⟨m1, hee, hcn, hcr, -⟩ := ensureEdges_cache_cases hed hca
    have hgic := getInteriorCe_of_none hic hee
    refine ⟨withInteriorCache m1 ed, ?_⟩
    unfold numDelaunayViolations
    rw [hgic]
    dsimp only [Bind.bind, Except.bind]
    rw [show interiorCeValue m1.cellsNodes m1.ceRatios ed =
      interiorCeValue m.cellsNodes m.ceRatios ed from by rw [hcn, hcr], hcnt]
  · have hgic := getInteriorCe_cache_some hic
    refine ⟨m, ?_⟩
    unfold numDelaunayViolations
    rw [hgic]
    dsimp only [Bind.bind, Except.bind]
    rw [hcnt]

theorem flipAux_of_cached_nonneg (m : Mesh) (ed1 : EdgeData) (fuel : ℕ) (icr : List ℚ)
    (hfcc : m.fccType ≠ some FccMode.full)
    (hes : m.edgeData = some ed1)
    (hic : m.interiorCe = some icr)
    (hany : (icr.map (fun x => decide (x < 0))).any id = false) :
    ∃ m2, flipUntilDelaunayAux fuel m = Except.ok (0, m2) ∧
      flipUntilDelaunay fuel m = Except.ok (false, m2) ∧
      (m2 = m ∨ m2 = withBoundaryMarks m ed1) ∧
      numDelaunayViolations m = Except.ok (0, m) := by
  have hnd : numDelaunayViolations m = Except.ok (0, m) := by
    unfold numDelaunayViolations
    rw [getInteriorCe_cache_some hic]
    dsimp only [Bind.bind, Except.bind]
    rw [countP_eq_zero_of_map_any_false hany]
  by_cases hA : allCePos m.ceRatios = true
  · have hAux : flipUntilDelaunayAux fuel m = Except.ok (0, m) := by
      unfold flipUntilDelaunayAux
      rw [if_neg hfcc, if_pos hA]
    refine ⟨m, hAux, ?_, Or.inl rfl, hnd⟩
    unfold flipUntilDelaunay
    rw [hAux]
    rfl
  · have hmb := markBoundaryM_of_ensure (ensureEdges_of_some hes)
    by_cases hB : interiorMaskAllPos (withBoundaryMarks m ed1).cellsNodes
        (withBoundaryMarks m ed1).ceRatios ed1 = true
    · have hAux : flipUntilDelaunayAux fuel m =
          Except.ok (0, withBoundaryMarks m ed1) := by
        unfold flipUntilDelaunayAux
        rw [if_neg hfcc, if_neg hA, hmb]
        dsimp only [Bind.bind, Except.bind]
        rw [if_pos hB]
      refine ⟨_, hAux, ?_, Or.inr rfl, hnd⟩
      unfold flipUntilDelaunay
      rw [hAux]
      rfl
    · have hBic : (withBoundaryMarks m ed1).interiorCe = some icr := hic
      have hgic := getInteriorCe_cache_some hBic
      have hAux : flipUntilDelaunayAux fuel m =
          Except.ok (0, withBoundaryMarks m ed1) := by
        unfold flipUntilDelaunayAux
        rw [if_neg hfcc, if_neg hA, hmb]
        dsimp only [Bind.bind, Except.bind]
        rw [if_neg hB, hgic]
        dsimp only [Bind.bind, Except.bind]
        exact flipLoopGo_no_needs hany
      refine ⟨_, hAux, ?_, Or.inr rfl, hnd⟩
      unfold flipUntilDelaunay
      rw [hAux]
      rfl

/-- C5 (amended): when `flip_until_delaunay` converges on a well-formed mesh,
running it again performs zero additional flip steps and returns `False`,
`num_delaunay_violations()` is `0` after the first run, and the second run
leaves the cell table, edge table, adjacency, cell volumes, the per-half-edge
ratio array and the ratio caches unchanged — only the boundary marks recomputed
by `mark_boundary` may differ. -/
theorem c5SecondRunZeroFlips (m : Mesh) (ed : EdgeData) (fuel fuel2 s : ℕ) (m1 : Mesh)
    (hfcc : m.fccType ≠ some FccMode.full)
    (hed : computeEdgeData m.cellsNodes = Except.ok ed)
    (hca : m.edgeData = none ∨ m.edgeData = some ed)
    (hic : m.interiorCe = none ∨
      m.interiorCe = some (interiorCeValue m.cellsNodes m.ceRatios ed))
    (hlen : m.ceRatios.length = m.cellsNodes.length)
    (h1 : flipUntilDelaunayAux fuel m = Except.ok (s, m1)) :
    ∃ m2, flipUntilDelaunayAux fuel2 m1 = Except.ok (0, m2) ∧
      flipUntilDelaunay fuel2 m1 = Except.ok (false, m2) ∧
      m2.nodeCoords = m1.nodeCoords ∧ m2.cellsNodes = m1.cellsNodes ∧
      m2.ceRatios = m1.ceRatios ∧ m2.cellVolumes = m1.cellVolumes ∧
      m2.edgeData = m1.edgeData ∧ m2.adjData = m1.adjData ∧
      m2.ceFull = m1.ceFull ∧ m2.interiorCe = m1.interiorCe ∧
      ∃ m3, numDelaunayViolations m1 = Except.ok (0, m3) := by
  by_cases hA : allCePos m.ceRatios = true
  · have hAux1 : flipUntilDelaunayAux fuel m = Except.ok (0, m) := by
      unfold flipUntilDelaunayAux
      rw [if_neg hfcc, if_pos hA]
    rw [hAux1] at h1
    injection h1 with h2
    injection h2 with hs hm1
    subst hm1
    have hpos : ∀ g ∈ ed.intGids, 0 < aggCeRatio m.cellsNodes m.ceRatios ed g := by
      intro g hg
      obtain ⟨p, q, hpq⟩ := interior_two_incidences hed hg
      have hpmem : p ∈ incidences m.cellsNodes.length ed g := by
        rw [hpq]
        exact List.mem_cons_self p [q]
      have hqmem : q ∈ incidences m.cellsNodes.length ed g := by
        rw [hpq]
        exact List.mem_cons_of_mem p (List.mem_cons_self q [])
      have hp1 := allCePos_ratio_pos hlen hA (List.mem_filter.mp hpmem).1
      have hq1 := allCePos_ratio_pos hlen hA (List.mem_filter.mp hqmem).1
      rw [aggCeRatio, hpq]
      simp only [List.map_cons, List.map_nil, List.sum_cons, List.sum_nil, add_zero]
      exact add_pos hp1 hq1
    have hAux2 : flipUntilDelaunayAux fuel2 m = Except.ok (0, m) := by
      unfold flipUntilDelaunayAux
      rw [if_neg hfcc, if_pos hA]
    refine ⟨m, hAux2, ?_, rfl, rfl, rfl, rfl, rfl, rfl, rfl, rfl,
      numDelaunay_zero_of_agg_pos hed hca hic hpos⟩
    unfold flipUntilDelaunay
    rw [hAux2]
    rfl
  · obtain ⟨mE, hee, hcn, hcr, hi1, hft, hnc, hedp, -⟩ := ensureEdges_cache_cases hed hca
    have hmb := markBoundaryM_of_ensure hee
    have hBcn : (withBoundaryMarks mE ed).cellsNodes = m.cellsNodes := hcn
    have hBcr : (withBoundaryMarks mE ed).ceRatios = m.ceRatios := hcr
    have hBic : (withBoundaryMarks mE ed).interiorCe = m.interiorCe := hi1
    have hBft : (withBoundaryMarks mE ed).fccType = m.fccType := hft
    have hBed : (withBoundaryMarks mE ed).edgeData = some ed := hedp
    by_cases hB : interiorMaskAllPos (withBoundaryMarks mE ed).cellsNodes
        (withBoundaryMarks mE ed).ceRatios ed = true
    · have hAux1 : flipUntilDelaunayAux fuel m =
          Except.ok (0, withBoundaryMarks mE ed) := by
        unfold flipUntilDelaunayAux
        rw [if_neg hfcc, if_neg hA, hmb]
        dsimp only [Bind.bind, Except.bind]
        rw [if_pos hB]
      rw [hAux1] at h1
      injection h1 with h2
      injection h2 with hs hm1
      subst hm1
      have hmask := hB
      rw [hBcn, hBcr] at hmask
      have hpos : ∀ g ∈ ed.intGids, 0 < aggCeRatio m.cellsNodes m.ceRatios ed g :=
        fun g hg => interiorMask_agg_pos hed hmask hg
      have hfcc1 : (withBoundaryMarks mE ed).fccType ≠ some FccMode.full := by
        rw [hBft]
        exact hfcc
      have hee2 : ensureEdges (withBoundaryMarks mE ed) =
          Except.ok (ed, withBoundaryMarks mE ed) := ensureEdges_of_some hBed
      have hmb2 := markBoundaryM_of_ensure hee2
      have hA2 : ¬ allCePos (withBoundaryMarks mE ed).ceRatios = true := by
        rw [hBcr]
        exact hA
      have hB2 : interiorMaskAllPos
          (withBoundaryMarks (withBoundaryMarks mE ed) ed).cellsNodes
          (withBoundaryMarks (withBoundaryMarks mE ed) ed).ceRatios ed = true := hB
      have hAux2 : flipUntilDelaunayAux fuel2 (withBoundaryMarks mE ed) =
          Except.ok (0, withBoundaryMarks (withBoundaryMarks mE ed) ed) := by
        unfold flipUntilDelaunayAux
        rw [if_neg hfcc1, if_neg hA2, hmb2]
        dsimp only [Bind.bind, Except.bind]
        rw [if_pos hB2]
      have hed1 : computeEdgeData (withBoundaryMarks mE ed).cellsNodes =
          Except.ok ed := by
        rw [hBcn]
        exact hed
      have hic1 : (withBoundaryMarks mE ed).interiorCe = none ∨
          (withBoundaryMarks mE ed).interiorCe =
            some (interiorCeValue (withBoundaryMarks mE ed).cellsNodes
              (withBoundaryMarks mE ed).ceRatios ed) := by
        rw [hBic, hBcn, hBcr]
        exact hic
      have hpos1 : ∀ g ∈ ed.intGids,
          0 < aggCeRatio (withBoundaryMarks mE ed).cellsNodes
            (withBoundaryMarks mE ed).ceRatios ed g := by
        rw [hBcn, hBcr]
        exact hpos
      refine ⟨withBoundaryMarks (withBoundaryMarks mE ed) ed, hAux2, ?_,
        rfl, rfl, rfl, rfl, rfl, rfl, rfl, rfl,
        numDelaunay_zero_of_agg_pos hed1 (Or.inr hBed) hic1 hpos1⟩
      unfold flipUntilDelaunay
      rw [hAux2]
      rfl
    · rcases hic with hic0 | hic0
      · have hBicN : (withBoundaryMarks mE ed).interiorCe = none := by
          rw [hBic, hic0]
        have hgic := getInteriorCe_of_none hBicN (ensureEdges_of_some hBed)
        have hAuxEq : flipUntilDelaunayAux fuel m =
            flipLoopGo fuel (withInteriorCache (withBoundaryMarks mE ed) ed)
              ((interiorCeValue (withBoundaryMarks mE ed).cellsNodes
                (withBoundaryMarks mE ed).ceRatios ed).map fun x =>
                  decide (x < 0)) 0 := by
          unfold flipUntilDelaunayAux
          rw [if_neg hfcc, if_neg hA, hmb]
          dsimp only [Bind.bind, Except.bind]
          rw [if_neg hB, hgic]
        rw [hAuxEq] at h1
        have hstIc : (withInteriorCache (withBoundaryMarks mE ed) ed).interiorCe =
            some (interiorCeValue (withBoundaryMarks mE ed).cellsNodes
              (withBoundaryMarks mE ed).ceRatios ed) := rfl
        have hstEd : (withInteriorCache (withBoundaryMarks mE ed) ed).edgeData =
            some ed := hBed
        have hstFt : (withInteriorCache (withBoundaryMarks mE ed) ed).fccType =
            m.fccType := hBft
        rcases flipLoopGo_ok_post h1 with ⟨hany, hmf⟩ | ⟨icr2, hi3, hany3, hes3, hf3⟩
        · subst hmf
          have hfcc1 : (withInteriorCache (withBoundaryMarks mE ed) ed).fccType ≠
              some FccMode.full := by
            rw [hstFt]
            exact hfcc
          obtain ⟨m2, hAux2, hDel2, hcases, hnd⟩ :=
            flipAux_of_cached_nonneg (withInteriorCache (withBoundaryMarks mE ed) ed)
              ed fuel2 _ hfcc1 hstEd hstIc hany
          refine ⟨m2, hAux2, hDel2, ?_, ?_, ?_, ?_, ?_, ?_, ?_, ?_, ⟨_, hnd⟩⟩ <;>
            rcases hcases with hc | hc <;> subst hc <;> rfl
        · obtain ⟨ed2, hed2⟩ := Option.isSome_iff_exists.mp hes3
          have hfcc1 : m1.fccType ≠ some FccMode.full := by
            rw [hf3, hstFt]
            exact hfcc
          obtain ⟨m2, hAux2, hDel2, hcases, hnd⟩ :=
            flipAux_of_cached_nonneg m1 ed2 fuel2 icr2 hfcc1 hed2 hi3 hany3
          refine ⟨m2, hAux2, hDel2, ?_, ?_, ?_, ?_, ?_, ?_, ?_, ?_, ⟨_, hnd⟩⟩ <;>
            rcases hcases with hc | hc <;> subst hc <;> rfl
      · have hBicS : (withBoundaryMarks mE ed).interiorCe =
            some (interiorCeValue m.cellsNodes m.ceRatios ed) := by
          rw [hBic, hic0]
        have hgic := getInteriorCe_cache_some hBicS
        have hAuxEq : flipUntilDelaunayAux fuel m =
            flipLoopGo fuel (withBoundaryMarks mE ed)
              ((interiorCeValue m.cellsNodes m.ceRatios ed).map fun x =>
                decide (x < 0)) 0 := by
          unfold flipUntilDelaunayAux
          rw [if_neg hfcc, if_neg hA, hmb]
          dsimp only [Bind.bind, Except.bind]
          rw [if_neg hB, hgic]
        rw [hAuxEq] at h1
        rcases flipLoopGo_ok_post h1 with ⟨hany, hmf⟩ | ⟨icr2, hi3, hany3, hes3, hf3⟩
        · subst hmf
          have hfcc1 : (withBoundaryMarks mE ed).fccType ≠ some FccMode.full := by
            rw [hBft]
            exact hfcc
          obtain ⟨m2, hAux2, hDel2, hcases, hnd⟩ :=
            flipAux_of_cached_nonneg (withBoundaryMarks mE ed) ed fuel2 _
              hfcc1 hBed hBicS hany
          refine ⟨m2, hAux2, hDel2, ?_, ?_, ?_, ?_, ?_, ?_, ?_, ?_, ⟨_, hnd⟩⟩ <;>
            rcases hcases with hc | hc <;> subst hc <;> rfl
        · obtain ⟨ed2, hed2⟩ := Option.isSome_iff_exists.mp hes3
          have hfcc1 : m1.fccType ≠ some FccMode.full := by
            rw [hf3, hBft]
            exact hfcc
          obtain ⟨m2, hAux2, hDel2, hcases, hnd⟩ :=
            flipAux_of_cached_nonneg m1 ed2 fuel2 icr2 hfcc1 hed2 hi3 hany3
          refine ⟨m2, hAux2, hDel2, ?_, ?_, ?_, ?_, ?_, ?_, ?_, ?_, ⟨_, hnd⟩⟩ <;>
            rcases hcases with hc | hc <;> subst hc <;> rfl

set_option maxRecDepth 8000 in
/-- Witness for C5 (amended): the four-cell quadrilateral mesh converges after
one flip; the second nine-fuel run flips nothing, returns `False`, reports zero
Delaunay violations, and changes no core field. -/
theorem c5Witness :
    ∃ m2, flipUntilDelaunayAux 9 quadMesh1 = Except.ok (0, m2) ∧
      flipUntilDelaunay 9 quadMesh1 = Except.ok (false, m2) ∧
      m2.nodeCoords = quadMesh1.nodeCoords ∧ m2.cellsNodes = quadMesh1.cellsNodes ∧
      m2.ceRatios = quadMesh1.ceRatios ∧ m2.cellVolumes = quadMesh1.cellVolumes ∧
      m2.edgeData = quadMesh1.edgeData ∧ m2.adjData = quadMesh1.adjData ∧
      m2.ceFull = quadMesh1.ceFull ∧ m2.interiorCe = quadMesh1.interiorCe ∧
      ∃ m3, numDelaunayViolations quadMesh1 = Except.ok (0, m3) :=
  c5SecondRunZeroFlips quadMesh quadEdgeData 9 9 1 quadMesh1 (by decide) (by decide)
    (Or.inl (by decide)) (Or.inl (by decide)) (by decide) (by decide)
